import Mathlib

/-!
# mleap-golang: the word2vec loader

A shallow embedding of `word2vec_loader.go` and the properties of its two
numeric operations (`Transform`, `Distance`) and of the payload parser inside
`Load`.

Modelling conventions.

* `float64` values are elements of a field `F` and are computed with exact arithmetic:
  rounding, NaN and the infinities are outside this model.  Executable examples
  use `ℚ`; statements that need `math.Sqrt` take the square-root function as an
  argument together with its defining property.
* Where rounding decides a property, `Transform` is embedded a second time over
  `Float64`, a model of the float64 values with round-to-nearest-even arithmetic
  (`Transform64`).
* A Go `map[string]V` is an association list with one entry per key
  (`GoMap`); iteration order is never observed by the source.
* A `*mat.VecDense` is the list of its components.  The gonum operations used
  by the source (`NewVecDense`, `AddVec`, `ScaleVec`, `Dot`) are modelled with
  the run-time checks gonum performs on the shapes of their operands.
* A call that does not return (a run-time panic, or `log.Fatal`) is an
  `Except.error` carrying an `Abort`; a call that returns is an `Except.ok`
  carrying the Go results, an `error` result being an `Option String`.
* A slice is a list whose capacity equals its length.
-/

namespace Mleap

/-- The ways a call can fail to return to its caller. -/
inductive Abort where
  /-- gonum `ErrShape`: operand dimensions differ. -/
  | shape
  /-- gonum `ErrZeroLength`: a vector of dimension zero was requested. -/
  | zeroLength
  /-- gonum: a vector of negative dimension was requested. -/
  | negativeDimension
  /-- Go runtime: `make` with a negative length. -/
  | makesliceLen
  /-- Go runtime: index out of range. -/
  | indexOutOfRange
  /-- Go runtime: slice bounds out of range. -/
  | sliceBounds
  /-- Go runtime: integer divide by zero. -/
  | divideByZero
  /-- The process was terminated by `log.Fatal`. -/
  | logFatal (msg : String)
  deriving DecidableEq, Repr

/-- Result of running a Go call: it either returns a value or aborts. -/
abbrev Run (α : Type) := Except Abort α

/-! ## Go maps keyed by strings -/

/-- A Go `map[string]V`, kept as an association list with at most one entry per key. -/
abbrev GoMap (V : Type) := List (String × V)

/-- The two-result map read `v, found := m[k]`. -/
def GoMap.lookup {V : Type} : GoMap V → String → Option V
  | [], _ => none
  | (k', v) :: rest, k => if k' = k then some v else GoMap.lookup rest k

/-- The map write `m[k] = v`: any previous entry for `k` is replaced. -/
def GoMap.store {V : Type} (m : GoMap V) (k : String) (v : V) : GoMap V :=
  (k, v) :: List.filter (fun p => decide (p.1 ≠ k)) m

/-- The number of keys, `len(m)`. -/
def GoMap.len {V : Type} (m : GoMap V) : Nat := List.length m

/-! ## Machine integers and slices -/

/-- Two's-complement wrap-around of a 64-bit `int`. -/
def wrapInt (x : Int) : Int := (x + 2 ^ 63) % 2 ^ 64 - 2 ^ 63

/-- The allocation `make([]float64, n)`. -/
def makeSlice {F : Type} [Field F] (n : Int) : Run (List F) :=
  if n < 0 then .error .makesliceLen else .ok (List.replicate n.toNat 0)

/-- The index expression `xs[idx]`. -/
def indexAt {α : Type} (xs : List α) (idx : Nat) : Run α :=
  match xs[idx]? with
  | some x => .ok x
  | none => .error .indexOutOfRange

/-- The slice expression `xs[lo:hi]`, for a slice whose capacity equals its length (Go
tests `hi` against the capacity). -/
def sliceRange {α : Type} (xs : List α) (lo hi : Int) : Run (List α) :=
  if lo < 0 ∨ hi < lo ∨ (xs.length : Int) < hi then .error .sliceBounds
  else .ok ((xs.drop lo.toNat).take (hi.toNat - lo.toNat))

/-- The integer division `a / b` of two lengths. -/
def divInt (a b : Nat) : Run Int :=
  if b = 0 then .error .divideByZero else .ok ((a / b : Nat) : Int)

/-! ## The gonum vector operations used by the source -/

/-- A dense vector, `*mat.VecDense`, as the list of its components. -/
abbrev VecDense (F : Type) := List F

/-- The constructor `mat.NewVecDense(n, data)` with a non-nil `data`. -/
def NewVecDense {F : Type} (n : Int) (data : List F) : Run (VecDense F) :=
  if n ≤ 0 then
    if n = 0 then .error .zeroLength else .error .negativeDimension
  else if (data.length : Int) ≠ n then .error .shape
  else .ok data

/-- The elementwise sum `v.AddVec(a, b)`; the result is the new contents of `v`. -/
def AddVec {F : Type} [Field F] (a b : VecDense F) : Run (VecDense F) :=
  if a.length ≠ b.length then .error .shape
  else .ok (List.zipWith (fun x y => x + y) a b)

/-- The scaling `v.ScaleVec(alpha, a)`; the result is the new contents of `v`. -/
def ScaleVec {F : Type} [Field F] (alpha : F) (a : VecDense F) : VecDense F :=
  a.map (fun x => alpha * x)

/-- The inner product `mat.Dot(a, b)`, accumulated from the first component on. -/
def Dot {F : Type} [Field F] (a b : VecDense F) : Run F :=
  if a.length ≠ b.length then .error .shape
  else .ok ((List.zip a b).foldl (fun sum p => sum + p.2 * p.1) 0)

/-! ## The model and its two operations -/

/-- The Go struct `WordToVecModel`. -/
structure WordToVecModel (F : Type) where
  VectorMap : GoMap (VecDense F)
  Norms : GoMap F
  VectorLength : Int

/-- The `for _, token := range sentence` loop of `Transform`. -/
def Transform.loop {F : Type} [Field F] (model : WordToVecModel F) :
    List String → VecDense F → Run (VecDense F)
  | [], sumVec => .ok sumVec
  | token :: rest, sumVec =>
    match model.VectorMap.lookup token with
    | some wordVector =>
      match AddVec sumVec wordVector with
      | .ok sumVec' => Transform.loop model rest sumVec'
      | .error e => .error e
    | none => Transform.loop model rest sumVec

/-- The method `(*WordToVecModel).Transform`, over exact arithmetic.  For the empty sentence
the factor `1 / float64(0)` is a division by zero, whose float64 value the field does not
represent; `Transform64` below computes with float64 values. -/
def Transform {F : Type} [Field F] (model : WordToVecModel F) (sentence : List String) :
    Run (VecDense F) :=
  match makeSlice model.VectorLength with
  | .error e => .error e
  | .ok sumRaw =>
    match NewVecDense model.VectorLength sumRaw with
    | .error e => .error e
    | .ok sumVec =>
      let sentenceLen := sentence.length
      match Transform.loop model sentence sumVec with
      | .error e => .error e
      | .ok sumVec => .ok (ScaleVec (1 / (sentenceLen : F)) sumVec)

/-- The method `(*WordToVecModel).Distance`, over exact arithmetic; the result is the pair
`(float64, error)`.  When a norm is zero the quotient is a division by zero, whose float64
value the field does not represent. -/
def Distance {F : Type} [Field F] (model : WordToVecModel F) (token1 token2 : String) :
    Run (F × Option String) :=
  match model.VectorMap.lookup token1 with
  | none => .ok (0, some ("No vector found for token " ++ token1))
  | some vector1 =>
    match model.VectorMap.lookup token2 with
    | none => .ok (0, some ("No vector found for token " ++ token2))
    | some vector2 =>
      match model.Norms.lookup token1 with
      | none => .ok (0, some ("No norm found for token " ++ token1))
      | some norm1 =>
        match model.Norms.lookup token2 with
        | none => .ok (0, some ("No norm found for token " ++ token2))
        | some norm2 =>
          match Dot vector1 vector2 with
          | .error e => .error e
          | .ok dotProduct =>
            let cosineSim := dotProduct / (norm1 * norm2)
            .ok (cosineSim, none)

/-! ## The payload and the loader -/

/-- The Go struct `Words`. -/
structure Words where
  Tokens : List String
  Type_ : String := ""

/-- The Go struct `Indices`; the cursors are `int64` values. -/
structure Indices where
  Cursors : List Int
  Type_ : String := ""

/-- The Go struct `WordVectors`. -/
structure WordVectors (F : Type) where
  Vectors : List F
  Type_ : String := ""

/-- The Go struct `Attributes`. -/
structure Attributes (F : Type) where
  Words : Words
  Indices : Indices
  WordVectors : WordVectors F

/-- The Go struct `WordToVecJson`. -/
structure WordToVecJson (F : Type) where
  Attributes : Attributes F
  Op : String := ""

/-- The `for idx := 0; idx < len(Tokens); idx++` loop of `Load`, entered at index `idx`
with the tokens from `idx` on still to be visited. -/
def Load.loop {F : Type} [Field F] (sqrt : F → F) (modelAttr : Attributes F) (dimSize : Int) :
    List String → Nat → GoMap (VecDense F) → GoMap F → Run (GoMap (VecDense F) × GoMap F)
  | [], _, vectorMap, norms => .ok (vectorMap, norms)
  | token :: rest, idx, vectorMap, norms =>
    match indexAt modelAttr.Indices.Cursors idx with
    | .error e => .error e
    | .ok cursor =>
      let vecStartIdx := wrapInt (cursor * dimSize)
      let vecEndIdx := wrapInt (vecStartIdx + dimSize)
      match sliceRange modelAttr.WordVectors.Vectors vecStartIdx vecEndIdx with
      | .error e => .error e
      | .ok tokenVector =>
        match NewVecDense dimSize tokenVector with
        | .error e => .error e
        | .ok tokenDense =>
          match Dot tokenDense tokenDense with
          | .error e => .error e
          | .ok d =>
            let tokenNorm := sqrt d
            Load.loop sqrt modelAttr dimSize rest (idx + 1)
              (vectorMap.store token tokenDense) (norms.store token tokenNorm)

/-- The part of `Load` that turns the decoded payload into a model
(from `modelAttr := modelStruct.Attributes` to the construction of the model). -/
def Load.build {F : Type} [Field F] (sqrt : F → F) (modelStruct : WordToVecJson F) :
    Run (WordToVecModel F) :=
  let modelAttr := modelStruct.Attributes
  let curLength := modelAttr.Indices.Cursors.length
  let vectorsLength := modelAttr.WordVectors.Vectors.length
  match divInt vectorsLength curLength with
  | .error e => .error e
  | .ok dimSize =>
    match Load.loop sqrt modelAttr dimSize modelAttr.Words.Tokens 0 [] [] with
    | .error e => .error e
    | .ok (vectorMap, norms) => .ok ⟨vectorMap, norms, dimSize⟩

/-- The test `strings.Contains(s, substr)`. -/
def stringsContains (s substr : String) : Bool :=
  (List.tails s.toList).any (fun t => List.isPrefixOf substr.toList t)

/-- An entry of an opened archive: its name, and what `file.Open()` followed by
`ioutil.ReadAll` yield (the outer error is that of `Open`, the inner that of `ReadAll`). -/
structure ZipFile where
  Name : String
  Open : Except String (Except String (List UInt8))

/-- The `for _, file := range reader.File` loop of `Load`; `Unmarshal` gives the state of
`modelStruct` after `json.Unmarshal`, whose error the source drops. -/
def Load.files {F : Type} [Field F] (Unmarshal : List UInt8 → WordToVecJson F) (sqrt : F → F) :
    List ZipFile → Run (Option (WordToVecModel F) × Option String)
  | [] => .ok (none, none)
  | file :: rest =>
    if stringsContains file.Name "model.json" then
      match file.Open with
      | .error err => .ok (none, some err)
      | .ok (.error err) => .ok (none, some err)
      | .ok (.ok content) =>
        match Load.build sqrt (Unmarshal content) with
        | .error e => .error e
        | .ok model => .ok (some model, none)
    else Load.files Unmarshal sqrt rest

/-- The method `(*WordToVecModelLoader).Load`; `OpenReader` stands for `zip.OpenReader`
on the file system at hand, and the result is the pair `(*WordToVecModel, error)`. -/
def Load {F : Type} [Field F] (OpenReader : String → Except String (List ZipFile))
    (Unmarshal : List UInt8 → WordToVecJson F) (sqrt : F → F) (filePath : String) :
    Run (Option (WordToVecModel F) × Option String) :=
  match OpenReader filePath with
  | .error err => .error (.logFatal err)
  | .ok files => Load.files Unmarshal sqrt files

/-! ## Predicates used in the statements -/

/-- The shape part of the model invariant: the dimensionality is positive and every
stored vector has exactly that many components. -/
def WordToVecModel.ShapeOk {F : Type} (m : WordToVecModel F) : Prop :=
  1 ≤ m.VectorLength ∧ ∀ p ∈ m.VectorMap, ((p.2.length : Nat) : Int) = m.VectorLength

instance {F : Type} (m : WordToVecModel F) : Decidable m.ShapeOk := by
  unfold WordToVecModel.ShapeOk; infer_instance

/-- The mathematical inner product of two component lists. -/
def dotProduct {F : Type} [Field F] (a b : List F) : F :=
  (List.zipWith (fun x y => x * y) a b).sum

/-- The model of the test scenario: `"scala"` maps to `[1, 2, 3]`. -/
def scalaModel : WordToVecModel ℚ :=
  ⟨[("scala", [1, 2, 3])], [("scala", 2)], 3⟩

/-- A model in which `"scala"` has a vector but no norm, and no other token has either. -/
def normlessModel : WordToVecModel ℚ :=
  ⟨[("scala", [1, 2, 3])], [], 3⟩

/-- A payload whose cursors are a non-identity permutation of the block indices. -/
def permPayload (F : Type) [Field F] : WordToVecJson F :=
  { Attributes :=
      { Words := { Tokens := ["a", "b", "c", "d"] }
        Indices := { Cursors := [2, 0, 3, 1] }
        WordVectors := { Vectors := [1, 2, 3, 4, 5, 6, 7, 8, 9, 10, 11, 12] } } }

/-- A payload whose token list holds the same token twice. -/
def dupPayload (F : Type) [Field F] : WordToVecJson F :=
  { Attributes :=
      { Words := { Tokens := ["a", "a"] }
        Indices := { Cursors := [0, 1] }
        WordVectors := { Vectors := [3, 4, 0, 5] } } }

/-- A model with two tokens whose vectors and norms are all present. -/
def pairModel : WordToVecModel ℚ :=
  ⟨[("scala", [1, 2, 3]), ("spark", [3, 0, 1])], [("scala", 2), ("spark", 5)], 3⟩

/-- A model in which `"zero"` maps to the zero vector, with norm `0`. -/
def zeroModel : WordToVecModel ℚ :=
  ⟨[("zero", [0, 0]), ("unit", [1, 0])], [("zero", 0), ("unit", 1)], 2⟩

/-- A payload whose flattened array (three values) is not a multiple of the number of
cursors (two). -/
def raggedPayload (F : Type) [Field F] : WordToVecJson F :=
  { Attributes :=
      { Words := { Tokens := ["a", "b"] }
        Indices := { Cursors := [0, 1] }
        WordVectors := { Vectors := [1, 2, 3] } } }

/-- A payload with fewer tokens (one) than cursors (two). -/
def shortTokensPayload (F : Type) [Field F] : WordToVecJson F :=
  { Attributes :=
      { Words := { Tokens := ["a"] }
        Indices := { Cursors := [0, 1] }
        WordVectors := { Vectors := [1, 2, 3, 4] } } }

/-- An archive that holds two entries, neither of them the payload. -/
def noPayloadArchive : List ZipFile :=
  [⟨"bundle.json", .ok (.ok [])⟩, ⟨"root/node.json", .ok (.ok [])⟩]

/-- A file system on which no archive can be opened. -/
def noArchive : String → Except String (List ZipFile) :=
  fun filePath => .error ("open " ++ filePath ++ ": no such file or directory")

/-- A payload with an empty cursor list. -/
def noCursorPayload (F : Type) [Field F] : WordToVecJson F :=
  { Attributes :=
      { Words := { Tokens := ["a"] }
        Indices := { Cursors := [] }
        WordVectors := { Vectors := [1, 2] } } }

/-- A payload with more tokens (two) than cursors (one). -/
def longTokensPayload (F : Type) [Field F] : WordToVecJson F :=
  { Attributes :=
      { Words := { Tokens := ["a", "b"] }
        Indices := { Cursors := [0] }
        WordVectors := { Vectors := [1, 2] } } }

/-- A payload with a negative cursor. -/
def negCursorPayload (F : Type) [Field F] : WordToVecJson F :=
  { Attributes :=
      { Words := { Tokens := ["a"] }
        Indices := { Cursors := [-1] }
        WordVectors := { Vectors := [1, 2] } } }

/-- An archive whose only entry is the payload. -/
def payloadArchive : List ZipFile :=
  [⟨"root/model.json", .ok (.ok [])⟩]

/-- The keys of a Go map. -/
def GoMap.keys {V : Type} (m : GoMap V) : List String := List.map Prod.fst m

/-! ## `Transform` over an explicit memory

In Go a `*mat.VecDense` points to a backing array that `AddVec` and `ScaleVec` overwrite in
place.  To state what `Transform` writes, the vectors of a model are kept here as addresses
into a memory of backing arrays. -/

/-- The memory of backing arrays; an address is a position in it. -/
abbrev Heap (F : Type) := List (List F)

/-- The contents of the backing array at an address. -/
def Heap.read {F : Type} (heap : Heap F) (a : Nat) : List F := List.getD heap a []

/-- Overwriting the backing array at an address. -/
def Heap.write {F : Type} (heap : Heap F) (a : Nat) (data : List F) : Heap F :=
  List.set heap a data

/-- Allocating a new backing array: its address, and the memory that holds it. -/
def Heap.alloc {F : Type} (heap : Heap F) (data : List F) : Nat × Heap F :=
  (List.length heap, heap ++ [data])

/-- The Go struct `WordToVecModel` with every `*mat.VecDense` kept as an address. -/
structure WordToVecModelRef (F : Type) where
  VectorMap : GoMap Nat
  Norms : GoMap F
  VectorLength : Int

/-- The model a `WordToVecModelRef` denotes in a given memory. -/
def WordToVecModelRef.deref {F : Type} (model : WordToVecModelRef F) (heap : Heap F) :
    WordToVecModel F :=
  ⟨List.map (fun p => (p.1, heap.read p.2)) model.VectorMap, model.Norms, model.VectorLength⟩

/-- The loop of `Transform` over the memory: `sumVec.AddVec(sumVec, wordVector)` reads the
arrays of `sumVec` and `wordVector` and overwrites the array of `sumVec`. -/
def TransformRef.loop {F : Type} [Field F] (model : WordToVecModelRef F) (sumVec : Nat) :
    List String → Heap F → Run (Heap F)
  | [], heap => .ok heap
  | token :: rest, heap =>
    match model.VectorMap.lookup token with
    | some wordVector =>
      match AddVec (heap.read sumVec) (heap.read wordVector) with
      | .ok data => TransformRef.loop model sumVec rest (heap.write sumVec data)
      | .error e => .error e
    | none => TransformRef.loop model sumVec rest heap

/-- The method `Transform` over the memory: the result is the address of the returned
vector together with the memory after the call. -/
def TransformRef {F : Type} [Field F] (heap : Heap F) (model : WordToVecModelRef F)
    (sentence : List String) : Run (Nat × Heap F) :=
  match makeSlice model.VectorLength with
  | .error e => .error e
  | .ok sumRaw =>
    match NewVecDense model.VectorLength sumRaw with
    | .error e => .error e
    | .ok data =>
      let sumVec := (heap.alloc data).1
      let sentenceLen := sentence.length
      match TransformRef.loop model sumVec sentence (heap.alloc data).2 with
      | .error e => .error e
      | .ok heap' =>
        .ok (sumVec, heap'.write sumVec (ScaleVec (1 / (sentenceLen : F)) (heap'.read sumVec)))

/-- The test scenario with its vector stored at address `0` of a one-array memory. -/
def scalaModelRef : WordToVecModelRef ℚ :=
  ⟨[("scala", 0)], [("scala", 2)], 3⟩

/-! ## `Transform` over float64 values

The float64 values and the three operations `Transform` performs on them, rounded to nearest
with ties to even as the hardware does. -/

/-- A float64 value: a NaN, an infinity, or the finite value `(-1)^neg * mant * 2^exp`.
The operations below return finite values in the form float64 stores them: `mant < 2^53`
and `-1074 ≤ exp ≤ 971`, with `2^52 ≤ mant` unless `exp = -1074`; zero is `mant = 0` at
`exp = -1074`. -/
inductive Float64 where
  | nan
  | inf (neg : Bool)
  | fin (neg : Bool) (mant : Nat) (exp : Int)
  deriving DecidableEq, Repr

/-- The number of binary digits of `n`, computed with at most `fuel` halvings. -/
def bitLength.go : Nat → Nat → Nat
  | 0, _ => 0
  | fuel + 1, n => if n = 0 then 0 else bitLength.go fuel (n / 2) + 1

/-- The number of binary digits of `n`. -/
def bitLength (n : Nat) : Nat := bitLength.go n n

/-- The float64 nearest to `(-1)^neg * (num / den) * 2^e` (with `den > 0`), ties to
even: the quotient is scaled to a mantissa of 53 binary digits (fewer below `2^-1022`),
rounded, and a value of `2^1024` or more overflows to an infinity. -/
def Float64.round (neg : Bool) (num den : Nat) (e : Int) : Float64 :=
  if num = 0 then .fin neg 0 (-1074)
  else
    let l : Int := (bitLength num : Int) - (bitLength den : Int)
    let ge : Bool :=
      if 0 ≤ l then decide (den * 2 ^ l.toNat ≤ num) else decide (den ≤ num * 2 ^ (-l).toNat)
    let g : Int := if ge then l else l - 1
    let ulp : Int := max (g + e - 52) (-1074)
    let k : Int := e - ulp
    let n : Nat := if 0 ≤ k then num * 2 ^ k.toNat else num
    let d : Nat := if 0 ≤ k then den else den * 2 ^ (-k).toNat
    let q : Nat := n / d
    let r : Nat := n % d
    let m : Nat :=
      if 2 * r < d then q else if d < 2 * r then q + 1 else if q % 2 = 0 then q else q + 1
    let mant : Nat := if m = 2 ^ 53 then 2 ^ 52 else m
    let exp : Int := if m = 2 ^ 53 then ulp + 1 else ulp
    if 971 < exp then .inf neg else .fin neg mant exp

/-- The conversion `float64(n)` of a non-negative integer. -/
def Float64.ofNat (n : Nat) : Float64 := Float64.round false n 1 0

/-- The float64 product `x * y`. -/
def Float64.mul : Float64 → Float64 → Float64
  | .nan, _ => .nan
  | _, .nan => .nan
  | .inf s, .inf t => .inf (xor s t)
  | .inf s, .fin t m _ => if m = 0 then .nan else .inf (xor s t)
  | .fin s m _, .inf t => if m = 0 then .nan else .inf (xor s t)
  | .fin s m e, .fin t n f => Float64.round (xor s t) (m * n) 1 (e + f)

/-- The float64 quotient `x / y`. -/
def Float64.div : Float64 → Float64 → Float64
  | .nan, _ => .nan
  | _, .nan => .nan
  | .inf _, .inf _ => .nan
  | .inf s, .fin t _ _ => .inf (xor s t)
  | .fin s _ _, .inf t => .fin (xor s t) 0 (-1074)
  | .fin s m e, .fin t n f =>
    if n = 0 then (if m = 0 then .nan else .inf (xor s t))
    else Float64.round (xor s t) m n (e - f)

/-- The float64 sum `x + y`. -/
def Float64.add : Float64 → Float64 → Float64
  | .nan, _ => .nan
  | _, .nan => .nan
  | .inf s, .inf t => if s = t then .inf s else .nan
  | .inf s, .fin _ _ _ => .inf s
  | .fin _ _ _, .inf t => .inf t
  | .fin s m e, .fin t n f =>
    let lo : Int := if m = 0 then f else if n = 0 then e else min e f
    let a : Int := (if s then -1 else 1) * ((m * 2 ^ (e - lo).toNat : Nat) : Int)
    let b : Int := (if t then -1 else 1) * ((n * 2 ^ (f - lo).toNat : Nat) : Int)
    let sum : Int := a + b
    if sum = 0 then .fin (s && t) 0 (-1074)
    else Float64.round (decide (sum < 0)) sum.natAbs 1 lo

/-- Equality of two results of a call is decidable when equality of the values is. -/
instance Run.decEq {α : Type} [DecidableEq α] : DecidableEq (Run α)
  | .ok a, .ok b =>
    if h : a = b then isTrue (by rw [h]) else isFalse (fun h' => h (Except.ok.inj h'))
  | .error a, .error b =>
    if h : a = b then isTrue (by rw [h]) else isFalse (fun h' => h (Except.error.inj h'))
  | .ok _, .error _ => isFalse (fun h => by cases h)
  | .error _, .ok _ => isFalse (fun h => by cases h)

/-- The allocation `make([]float64, n)` of float64 zeros. -/
def makeSlice64 (n : Int) : Run (List Float64) :=
  if n < 0 then .error .makesliceLen else .ok (List.replicate n.toNat (Float64.ofNat 0))

/-- The elementwise float64 sum `v.AddVec(a, b)`. -/
def AddVec64 (a b : VecDense Float64) : Run (VecDense Float64) :=
  if a.length ≠ b.length then .error .shape
  else .ok (List.zipWith (fun x y => Float64.add x y) a b)

/-- The float64 scaling `v.ScaleVec(alpha, a)`. -/
def ScaleVec64 (alpha : Float64) (a : VecDense Float64) : VecDense Float64 :=
  a.map (fun x => Float64.mul alpha x)

/-- The loop of `Transform` over float64 values. -/
def Transform64.loop (model : WordToVecModel Float64) :
    List String → VecDense Float64 → Run (VecDense Float64)
  | [], sumVec => .ok sumVec
  | token :: rest, sumVec =>
    match model.VectorMap.lookup token with
    | some wordVector =>
      match AddVec64 sumVec wordVector with
      | .ok sumVec' => Transform64.loop model rest sumVec'
      | .error e => .error e
    | none => Transform64.loop model rest sumVec

/-- The method `(*WordToVecModel).Transform` over float64 values. -/
def Transform64 (model : WordToVecModel Float64) (sentence : List String) :
    Run (VecDense Float64) :=
  match makeSlice64 model.VectorLength with
  | .error e => .error e
  | .ok sumRaw =>
    match NewVecDense model.VectorLength sumRaw with
    | .error e => .error e
    | .ok sumVec =>
      let sentenceLen := sentence.length
      match Transform64.loop model sentence sumVec with
      | .error e => .error e
      | .ok sumVec =>
        .ok (ScaleVec64 (Float64.div (Float64.ofNat 1) (Float64.ofNat sentenceLen)) sumVec)

/-- The float64 model in which `"one"` maps to the vector `[1.0]`. -/
def unitModel64 : WordToVecModel Float64 :=
  ⟨[("one", [Float64.ofNat 1])], [("one", Float64.ofNat 1)], 1⟩

/-- The float64 model of the test scenario: `"scala"` maps to `[1.0, 2.0, 3.0]`. -/
def scalaModel64 : WordToVecModel Float64 :=
  ⟨[("scala", [Float64.ofNat 1, Float64.ofNat 2, Float64.ofNat 3])],
    [("scala", Float64.ofNat 2)], 3⟩

/-! ## Auxiliary lemmas -/

theorem GoMap.mem_of_lookup {V : Type} (m : GoMap V) (k : String) (v : V)
    (h : GoMap.lookup m k = some v) : (k, v) ∈ m := by
  induction m with
  | nil => simp [GoMap.lookup] at h
  | cons p rest ih =>
    obtain ⟨k', v'⟩ := p
    simp only [GoMap.lookup] at h
    split at h
    · rename_i hk
      simp only [Option.some.injEq] at h
      subst hk; subst h; exact List.mem_cons_self _ _
    · exact List.mem_cons_of_mem _ (ih h)

theorem getD_zipWith_add {F : Type} [Field F] (a b : List F) (h : a.length = b.length)
    (j : Nat) :
    (List.zipWith (fun x y => x + y) a b).getD j 0 = a.getD j 0 + b.getD j 0 := by
  induction a generalizing b j with
  | nil =>
    cases b with
    | nil => simp
    | cons y ys => simp at h
  | cons x xs ih =>
    cases b with
    | nil => simp at h
    | cons y ys =>
      cases j with
      | zero => simp
      | succ j =>
        simp only [List.zipWith_cons_cons, List.getD_cons_succ]
        exact ih ys (by simpa using h) j

theorem Transform.loop_spec {F : Type} [Field F] (m : WordToVecModel F) (n : Nat)
    (hm : ∀ p ∈ m.VectorMap, p.2.length = n) (s : List String) (acc : VecDense F)
    (hacc : acc.length = n) :
    ∃ r, Transform.loop m s acc = .ok r ∧ r.length = n ∧
      ∀ j, r.getD j 0 = acc.getD j 0 +
        ((s.filterMap (GoMap.lookup m.VectorMap)).map (fun v => v.getD j 0)).sum := by
  induction s generalizing acc with
  | nil => exact ⟨acc, rfl, hacc, by simp⟩
  | cons t rest ih =>
    cases hl : GoMap.lookup m.VectorMap t with
    | none =>
      obtain ⟨r, hr, hlen, hj⟩ := ih acc hacc
      refine ⟨r, ?_, hlen, ?_⟩
      · simp only [Transform.loop, hl, hr]
      · intro j; simpa [List.filterMap_cons, hl] using hj j
    | some v =>
      have hv : v.length = n := hm _ (GoMap.mem_of_lookup _ _ _ hl)
      have hadd : AddVec acc v = .ok (List.zipWith (fun x y => x + y) acc v) := by
        simp [AddVec, hacc, hv]
      obtain ⟨r, hr, hlen, hj⟩ := ih (List.zipWith (fun x y => x + y) acc v)
        (by simp [hacc, hv])
      refine ⟨r, ?_, hlen, ?_⟩
      · simp only [Transform.loop, hl, hadd, hr]
      · intro j
        rw [hj j, getD_zipWith_add acc v (by rw [hacc, hv]) j]
        simp [List.filterMap_cons, hl, add_assoc]

theorem Transform_spec {F : Type} [Field F] (m : WordToVecModel F) (hm : m.ShapeOk)
    (s : List String) :
    ∃ r, Transform m s = .ok r ∧ ((r.length : Nat) : Int) = m.VectorLength ∧
      ∀ j, r.getD j 0 = (1 / (s.length : F)) *
        ((s.filterMap (GoMap.lookup m.VectorMap)).map (fun v => v.getD j 0)).sum := by
  obtain ⟨hpos, hvec⟩ := hm
  obtain ⟨n, hn⟩ : ∃ n : Nat, m.VectorLength = (n : Int) :=
    ⟨m.VectorLength.toNat, by omega⟩
  have hm' : ∀ p ∈ m.VectorMap, p.2.length = n := fun p hp => by
    have := hvec p hp; omega
  have hz : (List.replicate n (0 : F)).length = n := by simp
  obtain ⟨r, hr, hlen, hj⟩ := Transform.loop_spec m n hm' s (List.replicate n 0) hz
  refine ⟨ScaleVec (1 / (s.length : F)) r, ?_, ?_, ?_⟩
  · have h1 : ¬ ((n : Int) < 0) := by omega
    have h2 : ¬ ((n : Int) ≤ 0) := by omega
    simp [Transform, makeSlice, NewVecDense, hn, h1, h2, hr]
  · simp [ScaleVec, hlen, hn]
  · intro j
    have h0 : (List.replicate n (0 : F)).getD j 0 = 0 := by
      simp [List.getD_eq_getElem?_getD, List.getElem?_replicate]
      split <;> simp
    have := hj j
    rw [h0, zero_add] at this
    rw [← this]
    simp only [ScaleVec, List.getD_eq_getElem?_getD, List.getElem?_map]
    cases r[j]? <;> simp

theorem ext_getD {F : Type} [Field F] (a b : List F) (hl : a.length = b.length)
    (h : ∀ j, a.getD j 0 = b.getD j 0) : a = b := by
  apply List.ext_getElem hl
  intro i h1 h2
  have := h i
  simpa [List.getD_eq_getElem?_getD, List.getElem?_eq_getElem h1,
    List.getElem?_eq_getElem h2] using this

theorem Dot_foldl {F : Type} [Field F] (a b : List F) (acc : F) :
    (List.zip a b).foldl (fun sum p => sum + p.2 * p.1) acc = acc + dotProduct a b := by
  induction a generalizing b acc with
  | nil => simp [dotProduct]
  | cons x xs ih =>
    cases b with
    | nil => simp [dotProduct]
    | cons y ys =>
      simp only [List.zip_cons_cons, List.foldl_cons, ih]
      simp only [dotProduct, List.zipWith_cons_cons, List.sum_cons]
      ring

theorem Dot_eq {F : Type} [Field F] (a b : List F) (h : a.length = b.length) :
    Dot a b = .ok (dotProduct a b) := by
  simp [Dot, h, Dot_foldl]

/-! ## `Transform` -/

/-- C1: for a model that satisfies the shape invariant and a non-empty sentence `s`,
`Transform` returns (it does not abort and has no error result) a vector of the model's
dimensionality whose `j`-th component is `1 / len(s)` times the sum of the `j`-th
components of the vectors of exactly those positions of `s` whose token is a key of the
vector map; the divisor is the length of the whole sentence. -/
theorem Transform_average {F : Type} [Field F] (m : WordToVecModel F) (hm : m.ShapeOk)
    (s : List String) (_ : s ≠ []) :
    ∃ r, Transform m s = .ok r ∧ ((r.length : Nat) : Int) = m.VectorLength ∧
      ∀ j, r.getD j 0 = (1 / (s.length : F)) *
        ((s.filterMap (GoMap.lookup m.VectorMap)).map (fun v => v.getD j 0)).sum :=
  Transform_spec m hm s

/-- C1, the scenario of the specification: with `"scala"` mapped to `[1, 2, 3]`, the
sentence `["scala", "unknown_token"]` is transformed to `[1/2, 1, 3/2]`. -/
theorem Transform_average_witness :
    scalaModel.ShapeOk ∧ ["scala", "unknown_token"] ≠ [] ∧
    Transform scalaModel ["scala", "unknown_token"] = .ok [1 / 2, 1, 3 / 2] ∧
    ∃ r, Transform scalaModel ["scala", "unknown_token"] = .ok r ∧
      ((r.length : Nat) : Int) = scalaModel.VectorLength ∧
      ∀ j, r.getD j 0 = (1 / ((["scala", "unknown_token"].length : Nat) : ℚ)) *
        ((["scala", "unknown_token"].filterMap (GoMap.lookup scalaModel.VectorMap)).map
          (fun v => v.getD j 0)).sum :=
  ⟨by decide, by decide,
    by simp +decide [Transform, makeSlice, NewVecDense, Transform.loop, GoMap.lookup,
        scalaModel, AddVec, ScaleVec, List.replicate]; norm_num,
    Transform_average scalaModel (by decide) ["scala", "unknown_token"] (by decide)⟩

/-- C9 as amended: over exact arithmetic (a field of characteristic zero), for a model that
satisfies the shape invariant, a token `t` whose vector is `v` and `n ≥ 1`, `Transform` of
the sentence made of `n` copies of `t` returns `v`. -/
theorem Transform_replicate {F : Type} [Field F] [CharZero F] (m : WordToVecModel F)
    (hm : m.ShapeOk) (t : String) (v : VecDense F)
    (ht : GoMap.lookup m.VectorMap t = some v) (n : Nat) (hn : 1 ≤ n) :
    Transform m (List.replicate n t) = .ok v := by
  obtain ⟨r, hr, hlen, hj⟩ := Transform_spec m hm (List.replicate n t)
  have hv := hm.2 _ (GoMap.mem_of_lookup _ _ _ ht)
  have hn0 : (n : F) ≠ 0 := by
    have : n ≠ 0 := by omega
    exact_mod_cast this
  have hfm : (List.replicate n t).filterMap (GoMap.lookup m.VectorMap) = List.replicate n v := by
    clear hr hj hn hn0
    induction n with
    | zero => rfl
    | succ k ih => simp [List.replicate_succ, List.filterMap_cons, ht, ih]
  rw [hr]
  congr 1
  apply ext_getD
  · simp only at hv; omega
  · intro j
    rw [hj j, hfm]
    simp only [List.length_replicate, List.map_replicate, List.sum_replicate, nsmul_eq_mul]
    field_simp

/-- C9 as amended, at the scenario of the test and of the specification: with `"scala"`
mapped to `[1, 2, 3]`, the sentence `["scala", "scala"]` is transformed to `[1, 2, 3]`. -/
theorem Transform_replicate_witness :
    scalaModel.ShapeOk ∧ GoMap.lookup scalaModel.VectorMap "scala" = some [1, 2, 3] ∧ 1 ≤ 2 ∧
    Transform scalaModel ["scala", "scala"] = .ok [1, 2, 3] :=
  ⟨by decide, by decide, by decide,
    Transform_replicate scalaModel (by decide) "scala" [1, 2, 3] (by decide) 2 (by decide)⟩

/-! ## `Distance` -/

theorem Distance_spec {F : Type} [Field F] (m : WordToVecModel F) (a b : String)
    (va vb : VecDense F) (na nb : F)
    (hva : GoMap.lookup m.VectorMap a = some va) (hvb : GoMap.lookup m.VectorMap b = some vb)
    (hna : GoMap.lookup m.Norms a = some na) (hnb : GoMap.lookup m.Norms b = some nb)
    (hshape : va.length = vb.length) :
    Distance m a b = .ok (dotProduct va vb / (na * nb), none) := by
  simp only [Distance, hva, hvb, hna, hnb, Dot_eq va vb hshape]

/-- C2: when both tokens have an entry in the vector map and in the norm map (and the
two vectors have the same number of components, as the model invariant guarantees),
`Distance` returns with a nil error the value
`dot(vector(a), vector(b)) / (norm(a) * norm(b))`, unclamped. -/
theorem Distance_cosine {F : Type} [Field F] (m : WordToVecModel F) (a b : String)
    (va vb : VecDense F) (na nb : F)
    (hva : GoMap.lookup m.VectorMap a = some va) (hvb : GoMap.lookup m.VectorMap b = some vb)
    (hna : GoMap.lookup m.Norms a = some na) (hnb : GoMap.lookup m.Norms b = some nb)
    (hshape : va.length = vb.length) :
    Distance m a b = .ok (dotProduct va vb / (na * nb), none) :=
  Distance_spec m a b va vb na nb hva hvb hna hnb hshape

/-- C2 at a concrete model: `"scala"` is `[1, 2, 3]` with stored norm `4`, so the
distance of `"scala"` to itself is `14 / 4`, a value above `1`. -/
theorem Distance_cosine_witness :
    GoMap.lookup scalaModel.VectorMap "scala" = some [1, 2, 3] ∧
    GoMap.lookup scalaModel.Norms "scala" = some 2 ∧
    dotProduct [1, 2, 3] [1, 2, 3] / (2 * 2) = (7 / 2 : ℚ) ∧
    Distance scalaModel "scala" "scala" = .ok (dotProduct [1, 2, 3] [1, 2, 3] / (2 * 2), none) :=
  ⟨by decide, by decide, by norm_num [dotProduct],
    Distance_cosine scalaModel "scala" "scala" [1, 2, 3] [1, 2, 3] 2 2 (by decide) (by decide)
      (by decide) (by decide) (by decide)⟩

/-- C3: `Distance` returns a non-nil error exactly when one of the two tokens is missing
from the vector map or from the norm map; and when `a` is present in both maps while `b`
is missing from one of them, the call returns `0` with an error whose message is a fixed
text followed by `b`. -/
theorem Distance_error_iff {F : Type} [Field F] (m : WordToVecModel F) (a b : String) :
    ((∃ x msg, Distance m a b = .ok (x, some msg)) ↔
      (GoMap.lookup m.VectorMap a = none ∨ GoMap.lookup m.VectorMap b = none ∨
        GoMap.lookup m.Norms a = none ∨ GoMap.lookup m.Norms b = none)) ∧
    ((GoMap.lookup m.VectorMap a).isSome = true → (GoMap.lookup m.Norms a).isSome = true →
      (GoMap.lookup m.VectorMap b = none ∨ GoMap.lookup m.Norms b = none) →
      Distance m a b = .ok (0, some ("No vector found for token " ++ b)) ∨
      Distance m a b = .ok (0, some ("No norm found for token " ++ b))) := by
  unfold Distance
  cases hva : GoMap.lookup m.VectorMap a <;> cases hvb : GoMap.lookup m.VectorMap b <;>
    cases hna : GoMap.lookup m.Norms a <;> cases hnb : GoMap.lookup m.Norms b <;>
    simp
  rename_i va vb na nb
  cases Dot va vb <;> simp

/-- C3, the scenario of the specification: `Distance("scala", "unknown_token")` returns
an error that names `"unknown_token"`. -/
theorem Distance_error_iff_witness :
    (GoMap.lookup scalaModel.VectorMap "scala").isSome = true ∧
    (GoMap.lookup scalaModel.Norms "scala").isSome = true ∧
    GoMap.lookup scalaModel.VectorMap "unknown_token" = none ∧
    (Distance scalaModel "scala" "unknown_token" =
        .ok (0, some ("No vector found for token " ++ "unknown_token")) ∨
      Distance scalaModel "scala" "unknown_token" =
        .ok (0, some ("No norm found for token " ++ "unknown_token"))) :=
  ⟨by decide, by decide, by decide,
    (Distance_error_iff scalaModel "scala" "unknown_token").2 (by decide) (by decide)
      (Or.inl (by decide))⟩

/-- C4: a failing `Distance(tokenA, tokenB)` names the token of the first failing lookup
in the order vector(tokenA), vector(tokenB), norm(tokenA), norm(tokenB). -/
theorem Distance_first_failure {F : Type} [Field F] (m : WordToVecModel F) (a b : String) :
    (GoMap.lookup m.VectorMap a = none →
      Distance m a b = .ok (0, some ("No vector found for token " ++ a))) ∧
    ((GoMap.lookup m.VectorMap a).isSome = true → GoMap.lookup m.VectorMap b = none →
      Distance m a b = .ok (0, some ("No vector found for token " ++ b))) ∧
    ((GoMap.lookup m.VectorMap a).isSome = true → (GoMap.lookup m.VectorMap b).isSome = true →
      GoMap.lookup m.Norms a = none →
      Distance m a b = .ok (0, some ("No norm found for token " ++ a))) ∧
    ((GoMap.lookup m.VectorMap a).isSome = true → (GoMap.lookup m.VectorMap b).isSome = true →
      (GoMap.lookup m.Norms a).isSome = true → GoMap.lookup m.Norms b = none →
      Distance m a b = .ok (0, some ("No norm found for token " ++ b))) := by
  unfold Distance
  cases hva : GoMap.lookup m.VectorMap a <;> cases hvb : GoMap.lookup m.VectorMap b <;>
    cases hna : GoMap.lookup m.Norms a <;> cases hnb : GoMap.lookup m.Norms b <;>
    simp

/-- C4 at a concrete model: `"scala"` has a vector but no norm and `"spark"` has no
vector, and the error names `"spark"`, the second lookup being the first to fail. -/
theorem Distance_first_failure_witness :
    (GoMap.lookup normlessModel.VectorMap "scala").isSome = true ∧
    GoMap.lookup normlessModel.Norms "scala" = none ∧
    GoMap.lookup normlessModel.VectorMap "spark" = none ∧
    Distance normlessModel "scala" "spark" =
      .ok (0, some ("No vector found for token " ++ "spark")) ∧
    GoMap.lookup normlessModel.VectorMap "kafka" = none ∧
    Distance normlessModel "spark" "kafka" =
      .ok (0, some ("No vector found for token " ++ "spark")) :=
  ⟨by decide, by decide, by decide,
    (Distance_first_failure normlessModel "scala" "spark").2.1 (by decide) (by decide),
    by decide,
    (Distance_first_failure normlessModel "spark" "kafka").1 (by decide)⟩

/-! ## The payload parser inside `Load` -/

theorem GoMap.lookup_store {V : Type} (m : GoMap V) (k : String) (v : V) (t : String) :
    GoMap.lookup (GoMap.store m k v) t = if k = t then some v else GoMap.lookup m t := by
  simp only [GoMap.store, GoMap.lookup]
  split
  · rfl
  · rename_i hk
    induction m with
    | nil => rfl
    | cons p rest ih =>
      obtain ⟨k', v'⟩ := p
      by_cases hk' : k' = k
      · have hkt : ¬ k' = t := by rw [hk']; exact hk
        simp only [List.filter_cons, ne_eq, hk', not_true_eq_false, decide_False,
          Bool.false_eq_true, if_false, GoMap.lookup, hk]
        exact ih
      · simp only [List.filter_cons, ne_eq, hk', not_false_eq_true, decide_True, if_true,
          GoMap.lookup, ih]

theorem GoMap.mem_store {V : Type} (m : GoMap V) (k : String) (v : V) (p : String × V)
    (h : p ∈ GoMap.store m k v) : p = (k, v) ∨ p ∈ m := by
  simp only [GoMap.store, List.mem_cons, List.mem_filter] at h
  rcases h with h | h
  · exact Or.inl h
  · exact Or.inr h.1

theorem wrapInt_eq (x : Int) (h0 : 0 ≤ x) (h1 : x < 2 ^ 63) : wrapInt x = x := by
  unfold wrapInt
  omega

/-- One iteration of the loop of `Load`, read backwards: an iteration that does not abort
stores a vector of `dimSize` components, and the square root of its inner product with
itself, under the current token. -/
theorem Load.loop_cons_inv {F : Type} [Field F] (sqrt : F → F) (modelAttr : Attributes F)
    (dimSize : Int) (token : String) (rest : List String) (idx : Nat)
    (vectorMap : GoMap (VecDense F)) (norms : GoMap F) (r : GoMap (VecDense F) × GoMap F)
    (h : Load.loop sqrt modelAttr dimSize (token :: rest) idx vectorMap norms = .ok r) :
    ∃ v : VecDense F, ((v.length : Nat) : Int) = dimSize ∧ 0 < dimSize ∧
      Load.loop sqrt modelAttr dimSize rest (idx + 1) (vectorMap.store token v)
        (norms.store token (sqrt (dotProduct v v))) = .ok r := by
  simp only [Load.loop] at h
  split at h
  · simp at h
  · split at h
    · simp at h
    · rename_i tokenVector _
      split at h
      · simp at h
      · rename_i tokenDense hnew
        have hd : tokenDense = tokenVector ∧ ((tokenVector.length : Nat) : Int) = dimSize ∧
            0 < dimSize := by
          unfold NewVecDense at hnew
          split at hnew
          · split at hnew <;> simp at hnew
          · split at hnew
            · simp at hnew
            · rename_i h1 h2
              simp only [Except.ok.injEq] at hnew
              exact ⟨hnew.symm, by simpa using h2, by omega⟩
        obtain ⟨rfl, hlen, hpos⟩ := hd
        rw [Dot_eq tokenDense tokenDense rfl] at h
        exact ⟨tokenDense, hlen, hpos, h⟩

/-- What every completed run of the loop of `Load` establishes about the two maps. -/
theorem Load.loop_post {F : Type} [Field F] (sqrt : F → F) (modelAttr : Attributes F)
    (dimSize : Int) (rest : List String) (idx : Nat)
    (vectorMap : GoMap (VecDense F)) (norms : GoMap F) (r : GoMap (VecDense F) × GoMap F)
    (h : Load.loop sqrt modelAttr dimSize rest idx vectorMap norms = .ok r) :
    (∀ t, (GoMap.lookup r.1 t).isSome = true ↔
      (t ∈ rest ∨ (GoMap.lookup vectorMap t).isSome = true)) ∧
    (∀ t, (GoMap.lookup r.2 t).isSome = true ↔
      (t ∈ rest ∨ (GoMap.lookup norms t).isSome = true)) ∧
    ((∀ p ∈ vectorMap, ((p.2.length : Nat) : Int) = dimSize) →
      ∀ p ∈ r.1, ((p.2.length : Nat) : Int) = dimSize) ∧
    ((∀ t v, GoMap.lookup vectorMap t = some v →
        GoMap.lookup norms t = some (sqrt (dotProduct v v))) →
      ∀ t v, GoMap.lookup r.1 t = some v →
        GoMap.lookup r.2 t = some (sqrt (dotProduct v v))) := by
  induction rest generalizing idx vectorMap norms with
  | nil =>
    simp only [Load.loop, Except.ok.injEq] at h
    subst h
    simp
  | cons token rest ih =>
    obtain ⟨v, hlen, _, hrest⟩ := Load.loop_cons_inv sqrt modelAttr dimSize token rest idx
      vectorMap norms r h
    obtain ⟨hk1, hk2, hs, hn⟩ := ih (idx + 1) _ _ hrest
    refine ⟨?_, ?_, ?_, ?_⟩
    · intro t
      rw [hk1 t, GoMap.lookup_store]
      by_cases e : token = t
      · simp [e]
      · have e' : ¬ t = token := fun h' => e h'.symm
        simp [e, e']
    · intro t
      rw [hk2 t, GoMap.lookup_store]
      by_cases e : token = t
      · simp [e]
      · have e' : ¬ t = token := fun h' => e h'.symm
        simp [e, e']
    · intro hvm
      apply hs
      intro p hp
      rcases GoMap.mem_store _ _ _ _ hp with hp | hp
      · rw [hp]; exact hlen
      · exact hvm p hp
    · intro hvn
      apply hn
      intro t w hw
      rw [GoMap.lookup_store] at hw ⊢
      by_cases e : token = t
      · simp only [e, if_true, Option.some.injEq] at hw ⊢
        rw [hw]
      · simp only [e, if_false] at hw ⊢
        exact hvn t w hw

/-- A model returned by the payload parser: its dimensionality is the quotient of the two
lengths, and its maps are the result of a completed run of the loop from empty maps. -/
theorem Load.build_inv {F : Type} [Field F] (sqrt : F → F) (modelStruct : WordToVecJson F)
    (m : WordToVecModel F) (h : Load.build sqrt modelStruct = .ok m) :
    modelStruct.Attributes.Indices.Cursors.length ≠ 0 ∧
    m.VectorLength = ((modelStruct.Attributes.WordVectors.Vectors.length /
      modelStruct.Attributes.Indices.Cursors.length : Nat) : Int) ∧
    Load.loop sqrt modelStruct.Attributes m.VectorLength modelStruct.Attributes.Words.Tokens 0
      [] [] = .ok (m.VectorMap, m.Norms) := by
  simp only [Load.build, divInt] at h
  split at h
  · simp at h
  · rename_i dimSize heq
    split at heq
    · simp at heq
    · rename_i hc
      simp only [Except.ok.injEq] at heq
      subst heq
      split at h
      · simp at h
      · rename_i vm ns hloop
        simp only [Except.ok.injEq] at h
        subst h
        exact ⟨hc, rfl, hloop⟩

theorem dotProduct_self_nonneg {F : Type} [LinearOrderedField F] (v : List F) :
    0 ≤ dotProduct v v := by
  induction v with
  | nil => simp [dotProduct]
  | cons x xs ih =>
    simp only [dotProduct, List.zipWith_cons_cons, List.sum_cons] at ih ⊢
    exact add_nonneg (mul_self_nonneg x) ih

theorem dotProduct_self_pos {F : Type} [LinearOrderedField F] (v : List F)
    (h : ∃ x ∈ v, x ≠ 0) : 0 < dotProduct v v := by
  induction v with
  | nil => simp at h
  | cons x xs ih =>
    simp only [dotProduct, List.zipWith_cons_cons, List.sum_cons]
    by_cases hx : x = 0
    · have h' : ∃ y ∈ xs, y ≠ 0 := by
        obtain ⟨y, hy, hy0⟩ := h
        rcases List.mem_cons.mp hy with e | e
        · exact absurd (e ▸ hx) hy0
        · exact ⟨y, e, hy0⟩
      have := ih h'
      simp only [dotProduct] at this
      simpa [hx] using this
    · exact add_pos_of_pos_of_nonneg (mul_self_pos.mpr hx) (dotProduct_self_nonneg xs)

theorem Load.build_norms {F : Type} [Field F] (sqrt : F → F) (modelStruct : WordToVecJson F)
    (m : WordToVecModel F) (h : Load.build sqrt modelStruct = .ok m) (t : String)
    (v : VecDense F) (hv : GoMap.lookup m.VectorMap t = some v) :
    GoMap.lookup m.Norms t = some (sqrt (dotProduct v v)) := by
  obtain ⟨_, _, hloop⟩ := Load.build_inv sqrt modelStruct m h
  exact (Load.loop_post sqrt _ _ _ _ _ _ _ hloop).2.2.2
    (fun t v hv => by simp [GoMap.lookup] at hv) t v hv

/-- C6: a payload that parses successfully has a non-empty cursor list, and the stored
dimensionality is the integer quotient of the length of the flattened array by the length
of the cursor list. -/
theorem Load_dimensionality {F : Type} [Field F] (sqrt : F → F)
    (modelStruct : WordToVecJson F) (m : WordToVecModel F)
    (h : Load.build sqrt modelStruct = .ok m) :
    0 < modelStruct.Attributes.Indices.Cursors.length ∧
    m.VectorLength = ((modelStruct.Attributes.WordVectors.Vectors.length /
      modelStruct.Attributes.Indices.Cursors.length : Nat) : Int) := by
  obtain ⟨hc, hd, _⟩ := Load.build_inv sqrt modelStruct m h
  exact ⟨Nat.pos_of_ne_zero hc, hd⟩

/-- C6, the scenario of the specification: four cursors and a flattened array of twelve
values parse to dimensionality three. -/
theorem Load_dimensionality_witness :
    (permPayload ℚ).Attributes.Indices.Cursors.length = 4 ∧
    (permPayload ℚ).Attributes.WordVectors.Vectors.length = 12 ∧
    ∃ m, Load.build Rat.sqrt (permPayload ℚ) = .ok m ∧ m.VectorLength = 3 := by
  obtain ⟨m, hm⟩ : ∃ m, Load.build Rat.sqrt (permPayload ℚ) = .ok m := ⟨_, rfl⟩
  exact ⟨rfl, rfl, m, hm, (Load_dimensionality Rat.sqrt (permPayload ℚ) m hm).2⟩

/-- C7: in a model returned by the parser, the norm stored for a token is the non-negative
square root of the inner product of the token's stored vector with itself, so that this
inner product is the square of the norm; nothing is assumed about the token list, which
may hold a token several times. -/
theorem Load_norm_sqrt {F : Type} [LinearOrderedField F] (sqrt : F → F)
    (hsqrt : ∀ x, 0 ≤ x → 0 ≤ sqrt x ∧ sqrt x * sqrt x = x)
    (modelStruct : WordToVecJson F) (m : WordToVecModel F)
    (h : Load.build sqrt modelStruct = .ok m) (t : String) (v : VecDense F)
    (hv : GoMap.lookup m.VectorMap t = some v) :
    ∃ n, GoMap.lookup m.Norms t = some n ∧ n = sqrt (dotProduct v v) ∧ 0 ≤ n ∧
      dotProduct v v = n ^ 2 := by
  obtain ⟨h0, h1⟩ := hsqrt _ (dotProduct_self_nonneg v)
  exact ⟨_, Load.build_norms sqrt modelStruct m h t v hv, rfl, h0, by rw [pow_two, h1]⟩

/-- C7 at a payload that lists the token `"a"` twice, over the real numbers: the stored
vector is that of the second occurrence and the stored norm is its Euclidean length. -/
theorem Load_norm_sqrt_witness :
    (∀ x : ℝ, 0 ≤ x → 0 ≤ Real.sqrt x ∧ Real.sqrt x * Real.sqrt x = x) ∧
    ∃ m, Load.build Real.sqrt (dupPayload ℝ) = .ok m ∧ m.VectorMap = [("a", [0, 5])] ∧
      ∃ n, GoMap.lookup m.Norms "a" = some n ∧ n = Real.sqrt (dotProduct [0, 5] [0, 5]) ∧
        0 ≤ n ∧ dotProduct [0, 5] [0, 5] = n ^ 2 := by
  have hs : ∀ x : ℝ, 0 ≤ x → 0 ≤ Real.sqrt x ∧ Real.sqrt x * Real.sqrt x = x :=
    fun x hx => ⟨Real.sqrt_nonneg x, Real.mul_self_sqrt hx⟩
  obtain ⟨m, hm, hvm⟩ : ∃ m, Load.build Real.sqrt (dupPayload ℝ) = .ok m ∧
      m.VectorMap = [("a", [0, 5])] := ⟨_, rfl, rfl⟩
  exact ⟨hs, m, hm, hvm, Load_norm_sqrt Real.sqrt hs (dupPayload ℝ) m hm "a" [0, 5]
    (by rw [hvm]; simp [GoMap.lookup])⟩

/-- C8: a model returned by the parser satisfies the model invariant: the keys of the
vector map and the keys of the norm map are both exactly the tokens of the payload's token
list, and every stored vector has as many components as the stored dimensionality. -/
theorem Load_invariant {F : Type} [Field F] (sqrt : F → F) (modelStruct : WordToVecJson F)
    (m : WordToVecModel F) (h : Load.build sqrt modelStruct = .ok m) :
    (∀ t, (GoMap.lookup m.VectorMap t).isSome = true ↔
      t ∈ modelStruct.Attributes.Words.Tokens) ∧
    (∀ t, (GoMap.lookup m.Norms t).isSome = true ↔
      t ∈ modelStruct.Attributes.Words.Tokens) ∧
    (∀ t, (GoMap.lookup m.VectorMap t).isSome = (GoMap.lookup m.Norms t).isSome) ∧
    (∀ p ∈ m.VectorMap, ((p.2.length : Nat) : Int) = m.VectorLength) ∧
    (∀ t v, GoMap.lookup m.VectorMap t = some v →
      ((v.length : Nat) : Int) = m.VectorLength) := by
  obtain ⟨_, _, hloop⟩ := Load.build_inv sqrt modelStruct m h
  obtain ⟨hk1, hk2, hs, _⟩ := Load.loop_post sqrt _ _ _ _ _ _ _ hloop
  have h1 : ∀ t, (GoMap.lookup m.VectorMap t).isSome = true ↔
      t ∈ modelStruct.Attributes.Words.Tokens := fun t => by
    simpa [GoMap.lookup] using hk1 t
  have h2 : ∀ t, (GoMap.lookup m.Norms t).isSome = true ↔
      t ∈ modelStruct.Attributes.Words.Tokens := fun t => by
    simpa [GoMap.lookup] using hk2 t
  have h3 : ∀ p ∈ m.VectorMap, ((p.2.length : Nat) : Int) = m.VectorLength :=
    hs (fun p hp => by simp at hp)
  refine ⟨h1, h2, ?_, h3, ?_⟩
  · intro t
    rw [Bool.eq_iff_iff, h1 t, h2 t]
  · intro t v hv
    exact h3 _ (GoMap.mem_of_lookup _ _ _ hv)

/-- C8 at a concrete payload: the parsed model has the four tokens as keys of both maps
and vectors of three components. -/
theorem Load_invariant_witness :
    ∃ m, Load.build Rat.sqrt (permPayload ℚ) = .ok m ∧
      (∀ t, (GoMap.lookup m.VectorMap t).isSome = true ↔ t ∈ ["a", "b", "c", "d"]) ∧
      (∀ t, (GoMap.lookup m.Norms t).isSome = true ↔ t ∈ ["a", "b", "c", "d"]) ∧
      (∀ t, (GoMap.lookup m.VectorMap t).isSome = (GoMap.lookup m.Norms t).isSome) ∧
      (∀ p ∈ m.VectorMap, ((p.2.length : Nat) : Int) = m.VectorLength) ∧
      (∀ t v, GoMap.lookup m.VectorMap t = some v →
        ((v.length : Nat) : Int) = m.VectorLength) := by
  obtain ⟨m, hm⟩ : ∃ m, Load.build Rat.sqrt (permPayload ℚ) = .ok m := ⟨_, rfl⟩
  exact ⟨m, hm, Load_invariant Rat.sqrt (permPayload ℚ) m hm⟩

/-- C10: in a model returned by the parser, for a token `t` whose stored vector has a
non-zero component, `Distance(t, t)` returns `1` with a nil error. -/
theorem Distance_self {F : Type} [LinearOrderedField F] (sqrt : F → F)
    (hsqrt : ∀ x, 0 ≤ x → 0 ≤ sqrt x ∧ sqrt x * sqrt x = x)
    (modelStruct : WordToVecJson F) (m : WordToVecModel F)
    (h : Load.build sqrt modelStruct = .ok m) (t : String) (v : VecDense F)
    (hv : GoMap.lookup m.VectorMap t = some v) (hnz : ∃ x ∈ v, x ≠ 0) :
    Distance m t t = .ok (1, none) := by
  have hn := Load.build_norms sqrt modelStruct m h t v hv
  have hpos := dotProduct_self_pos v hnz
  obtain ⟨_, h1⟩ := hsqrt _ (le_of_lt hpos)
  rw [Distance_spec m t t v v _ _ hv hv hn hn rfl, h1, div_self (ne_of_gt hpos)]

/-- C10 at a concrete payload over the real numbers: the distance of `"a"`, whose stored
vector is `[0, 5]`, to itself is `1`. -/
theorem Distance_self_witness :
    (∀ x : ℝ, 0 ≤ x → 0 ≤ Real.sqrt x ∧ Real.sqrt x * Real.sqrt x = x) ∧
    ∃ m, Load.build Real.sqrt (dupPayload ℝ) = .ok m ∧ m.VectorMap = [("a", [0, 5])] ∧
      (∃ x ∈ ([0, 5] : List ℝ), x ≠ 0) ∧ Distance m "a" "a" = .ok (1, none) := by
  have hs : ∀ x : ℝ, 0 ≤ x → 0 ≤ Real.sqrt x ∧ Real.sqrt x * Real.sqrt x = x :=
    fun x hx => ⟨Real.sqrt_nonneg x, Real.mul_self_sqrt hx⟩
  obtain ⟨m, hm, hvm⟩ : ∃ m, Load.build Real.sqrt (dupPayload ℝ) = .ok m ∧
      m.VectorMap = [("a", [0, 5])] := ⟨_, rfl, rfl⟩
  have hnz : ∃ x ∈ ([0, 5] : List ℝ), x ≠ 0 := ⟨5, by simp, by norm_num⟩
  exact ⟨hs, m, hm, hvm, hnz, Distance_self Real.sqrt hs (dupPayload ℝ) m hm "a" [0, 5]
    (by rw [hvm]; simp [GoMap.lookup]) hnz⟩

theorem toNat_mul_natCast (c : Int) (d : Nat) (h0 : 0 ≤ c) :
    (c * (d : Int)).toNat = c.toNat * d := by
  obtain ⟨k, rfl⟩ := Int.eq_ofNat_of_zero_le h0
  rw [← Int.natCast_mul, Int.toNat_ofNat, Int.toNat_ofNat]

/-- One iteration of the loop of `Load` on a cursor that names a block inside the
flattened array: the iteration does not abort and stores that block under the token. -/
theorem Load.loop_cons_ok {F : Type} [Field F] (sqrt : F → F) (modelAttr : Attributes F)
    (d : Nat) (token : String) (rest : List String) (idx : Nat)
    (vectorMap : GoMap (VecDense F)) (norms : GoMap F) (c : Int)
    (hc : modelAttr.Indices.Cursors[idx]? = some c) (h0 : 0 ≤ c) (hd : 1 ≤ d)
    (hin : c * (d : Int) + (d : Int) ≤ (modelAttr.WordVectors.Vectors.length : Int))
    (hsz : modelAttr.WordVectors.Vectors.length < 2 ^ 63) :
    Load.loop sqrt modelAttr (d : Int) (token :: rest) idx vectorMap norms =
      Load.loop sqrt modelAttr (d : Int) rest (idx + 1)
        (vectorMap.store token ((modelAttr.WordVectors.Vectors.drop (c.toNat * d)).take d))
        (norms.store token (sqrt (dotProduct
          ((modelAttr.WordVectors.Vectors.drop (c.toNat * d)).take d)
          ((modelAttr.WordVectors.Vectors.drop (c.toNat * d)).take d)))) := by
  have hsz' : (modelAttr.WordVectors.Vectors.length : Int) < 2 ^ 63 := by exact_mod_cast hsz
  have hnn : (0 : Int) ≤ c * (d : Int) := by positivity
  have htn := toNat_mul_natCast c d h0
  have e1 : wrapInt (c * (d : Int)) = c * (d : Int) := wrapInt_eq _ hnn (by omega)
  have e2 : wrapInt (c * (d : Int) + (d : Int)) = c * (d : Int) + (d : Int) :=
    wrapInt_eq _ (by omega) (by omega)
  have hs : sliceRange modelAttr.WordVectors.Vectors (c * (d : Int)) (c * (d : Int) + (d : Int)) =
      .ok ((modelAttr.WordVectors.Vectors.drop (c.toNat * d)).take d) := by
    unfold sliceRange
    rw [if_neg (by omega)]
    have h1 : (c * (d : Int) + (d : Int)).toNat - (c * (d : Int)).toNat = d := by omega
    rw [h1, htn]
  have hl : ((modelAttr.WordVectors.Vectors.drop (c.toNat * d)).take d).length = d := by
    simp only [List.length_take, List.length_drop]; omega
  have hn : NewVecDense (d : Int) ((modelAttr.WordVectors.Vectors.drop (c.toNat * d)).take d) =
      .ok ((modelAttr.WordVectors.Vectors.drop (c.toNat * d)).take d) := by
    unfold NewVecDense
    rw [if_neg (by omega), if_neg (by rw [hl]; simp)]
  simp only [Load.loop, indexAt, hc, e1, e2, hs, hn, Dot_eq _ _ rfl]

/-- The loop of `Load` on cursors that all name blocks inside the flattened array: it
does not abort, leaves the tokens it does not visit untouched, and the entry of a visited
token is the block named by the cursor at the token's last position. -/
theorem Load.loop_ok {F : Type} [Field F] (sqrt : F → F) (modelAttr : Attributes F)
    (d : Nat) (hd : 1 ≤ d) (hsz : modelAttr.WordVectors.Vectors.length < 2 ^ 63)
    (rest : List String) (idx : Nat) (vectorMap : GoMap (VecDense F)) (norms : GoMap F)
    (hcur : ∀ k, k < rest.length → ∃ c, modelAttr.Indices.Cursors[idx + k]? = some c ∧
      0 ≤ c ∧ c * (d : Int) + (d : Int) ≤ (modelAttr.WordVectors.Vectors.length : Int)) :
    ∃ r, Load.loop sqrt modelAttr (d : Int) rest idx vectorMap norms = .ok r ∧
      (∀ t, t ∉ rest → GoMap.lookup r.1 t = GoMap.lookup vectorMap t) ∧
      (∀ k t c, rest[k]? = some t → (∀ k', k < k' → rest[k']? ≠ some t) →
        modelAttr.Indices.Cursors[idx + k]? = some c →
        GoMap.lookup r.1 t =
          some ((modelAttr.WordVectors.Vectors.drop (c.toNat * d)).take d)) := by
  induction rest generalizing idx vectorMap norms with
  | nil => exact ⟨(vectorMap, norms), rfl, fun _ _ => rfl, by simp⟩
  | cons token rest ih =>
    obtain ⟨c0, hc0, h0, hin⟩ := hcur 0 (by simp)
    rw [Nat.add_zero] at hc0
    rw [Load.loop_cons_ok sqrt modelAttr d token rest idx vectorMap norms c0 hc0 h0 hd hin hsz]
    obtain ⟨r, hr, hout, hin'⟩ := ih (idx + 1) _ _ (fun k hk => by
      have := hcur (k + 1) (by simpa using hk)
      rwa [show idx + (k + 1) = idx + 1 + k by omega] at this)
    refine ⟨r, hr, ?_, ?_⟩
    · intro t ht
      rw [hout t (fun h => ht (List.mem_cons_of_mem _ h)), GoMap.lookup_store,
        if_neg (fun (h : token = t) => ht (h ▸ List.mem_cons_self _ _))]
    · intro k t c hk hlast hc
      cases k with
      | zero =>
        simp only [List.getElem?_cons_zero, Option.some.injEq] at hk
        subst hk
        have hnot : token ∉ rest := by
          intro hmem
          obtain ⟨i, hi⟩ := List.getElem?_of_mem hmem
          exact hlast (i + 1) (by omega) (by simpa using hi)
        rw [Nat.add_zero, hc0] at hc
        simp only [Option.some.injEq] at hc
        subst hc
        rw [hout token hnot, GoMap.lookup_store, if_pos rfl]
      | succ k =>
        apply hin' k t c (by simpa using hk)
        · intro k' hk' hget
          exact hlast (k' + 1) (by omega) (by simpa using hget)
        · rwa [show idx + (k + 1) = idx + 1 + k by omega] at hc

/-- C5: for a payload with as many cursors as tokens, a positive dimensionality and
cursors that all name blocks inside the flattened array, the parser returns a model, and
(the tokens being distinct) the vector stored for the token at index `i` is the slice
`flattenedVectors[cursors[i]*dimSize : cursors[i]*dimSize + dimSize]`: it has `dimSize`
components and its `j`-th component is `flattenedVectors[cursors[i]*dimSize + j]`; the
block is selected by the cursor value, not by the position `i`. -/
theorem Load_vector_by_cursor {F : Type} [Field F] (sqrt : F → F)
    (modelStruct : WordToVecJson F)
    (hlen : modelStruct.Attributes.Words.Tokens.length =
      modelStruct.Attributes.Indices.Cursors.length)
    (hdim : 1 ≤ modelStruct.Attributes.WordVectors.Vectors.length /
      modelStruct.Attributes.Indices.Cursors.length)
    (hsz : modelStruct.Attributes.WordVectors.Vectors.length < 2 ^ 63)
    (hcur : ∀ c ∈ modelStruct.Attributes.Indices.Cursors, 0 ≤ c ∧
      c * ((modelStruct.Attributes.WordVectors.Vectors.length /
          modelStruct.Attributes.Indices.Cursors.length : Nat) : Int) +
        ((modelStruct.Attributes.WordVectors.Vectors.length /
          modelStruct.Attributes.Indices.Cursors.length : Nat) : Int) ≤
        (modelStruct.Attributes.WordVectors.Vectors.length : Int))
    (hnd : modelStruct.Attributes.Words.Tokens.Nodup) :
    ∃ m, Load.build sqrt modelStruct = .ok m ∧
      ∀ (i : Nat) (t : String) (c : Int),
        modelStruct.Attributes.Words.Tokens[i]? = some t →
        modelStruct.Attributes.Indices.Cursors[i]? = some c →
        ∃ v, GoMap.lookup m.VectorMap t = some v ∧
          v = (modelStruct.Attributes.WordVectors.Vectors.drop
            (c.toNat * (modelStruct.Attributes.WordVectors.Vectors.length /
              modelStruct.Attributes.Indices.Cursors.length))).take
            (modelStruct.Attributes.WordVectors.Vectors.length /
              modelStruct.Attributes.Indices.Cursors.length) ∧
          v.length = modelStruct.Attributes.WordVectors.Vectors.length /
            modelStruct.Attributes.Indices.Cursors.length ∧
          ∀ j, j < modelStruct.Attributes.WordVectors.Vectors.length /
              modelStruct.Attributes.Indices.Cursors.length →
            v[j]? = modelStruct.Attributes.WordVectors.Vectors[
              c.toNat * (modelStruct.Attributes.WordVectors.Vectors.length /
                modelStruct.Attributes.Indices.Cursors.length) + j]? := by
  obtain ⟨⟨⟨tokens, ty1⟩, ⟨cursors, ty2⟩, ⟨vectors, ty3⟩⟩, op⟩ := modelStruct
  simp only at hlen hdim hsz hcur hnd ⊢
  generalize hd : vectors.length / cursors.length = d at hdim hcur ⊢
  have hcl : cursors.length ≠ 0 := by
    intro h0
    rw [h0, Nat.div_zero] at hd
    omega
  obtain ⟨r, hr, _, hval⟩ := Load.loop_ok sqrt ⟨⟨tokens, ty1⟩, ⟨cursors, ty2⟩, ⟨vectors, ty3⟩⟩
    d hdim hsz tokens 0 [] [] (fun k hk => by
      have hk' : k < cursors.length := by rw [← hlen]; exact hk
      refine ⟨cursors[k], ?_, hcur _ (List.getElem_mem _)⟩
      simp only [Nat.zero_add]
      exact List.getElem?_eq_getElem hk')
  refine ⟨⟨r.1, r.2, (d : Int)⟩, ?_, ?_⟩
  · simp only [Load.build, divInt, if_neg hcl, hd, hr]
  · intro i t c ht hc
    have hlast : ∀ k', i < k' → tokens[k']? ≠ some t := by
      intro k' hk' hget
      have hk'len : k' < tokens.length := by
        by_contra hge
        rw [List.getElem?_eq_none (by omega)] at hget
        simp at hget
      exact List.nodup_iff_getElem?_ne_getElem?.mp hnd i k' hk' hk'len (by rw [ht, hget])
    have hlook := hval i t c ht hlast (by simpa using hc)
    have hcin : c ∈ cursors := List.getElem?_mem hc
    obtain ⟨hc0, hcle⟩ := hcur c hcin
    have hbound : c.toNat * d + d ≤ vectors.length := by
      obtain ⟨k, rfl⟩ := Int.eq_ofNat_of_zero_le hc0
      rw [Int.toNat_ofNat]
      exact_mod_cast hcle
    refine ⟨_, hlook, rfl, ?_, ?_⟩
    · simp only [List.length_take, List.length_drop]; omega
    · intro j hj
      rw [List.getElem?_take_of_lt hj, List.getElem?_drop]

/-- C5 at a payload whose cursors `[2, 0, 3, 1]` are a non-identity permutation: token
`"a"` at index `0` receives block `2`, and token `"b"` at index `1` receives block `0`. -/
theorem Load_vector_by_cursor_witness :
    ∃ m, Load.build Rat.sqrt (permPayload ℚ) = .ok m ∧
      GoMap.lookup m.VectorMap "a" = some [7, 8, 9] ∧
      GoMap.lookup m.VectorMap "b" = some [1, 2, 3] := by
  obtain ⟨m, hm, hall⟩ := Load_vector_by_cursor Rat.sqrt (permPayload ℚ) (by decide)
    (by decide) (by decide) (by decide) (by decide)
  obtain ⟨va, hva, ea, _⟩ := hall 0 "a" 2 rfl rfl
  obtain ⟨vb, hvb, eb, _⟩ := hall 1 "b" 0 rfl rfl
  refine ⟨m, hm, ?_, ?_⟩
  · rw [hva, ea]; rfl
  · rw [hvb, eb]; rfl

/-! ## Further properties of `Distance` and `Transform` -/

theorem dotProduct_comm {F : Type} [Field F] (a b : List F) :
    dotProduct a b = dotProduct b a := by
  induction a generalizing b with
  | nil => cases b <;> simp [dotProduct]
  | cons x xs ih =>
    cases b with
    | nil => simp [dotProduct]
    | cons y ys =>
      have := ih ys
      simp only [dotProduct, List.zipWith_cons_cons, List.sum_cons] at this ⊢
      rw [this, mul_comm]

/-- C11: `Distance` is symmetric on the pairs on which it succeeds: when `Distance(a, b)`
returns a value with a nil error, `Distance(b, a)` returns the same value with a nil
error. -/
theorem Distance_symm {F : Type} [Field F] (m : WordToVecModel F) (a b : String) (x : F)
    (h : Distance m a b = .ok (x, none)) : Distance m b a = .ok (x, none) := by
  unfold Distance at h ⊢
  cases hva : GoMap.lookup m.VectorMap a <;> cases hvb : GoMap.lookup m.VectorMap b <;>
    cases hna : GoMap.lookup m.Norms a <;> cases hnb : GoMap.lookup m.Norms b <;>
    simp only [hva, hvb, hna, hnb] at h ⊢ <;> try simp at h
  rename_i va vb na nb
  by_cases hl : va.length = vb.length
  · rw [Dot_eq va vb hl] at h
    rw [Dot_eq vb va hl.symm]
    simp only [Except.ok.injEq, Prod.mk.injEq, and_true] at h ⊢
    rw [← h, dotProduct_comm vb va, mul_comm nb na]
  · have hd : Dot va vb = .error .shape := by simp [Dot, hl]
    rw [hd] at h
    simp at h

/-- C11 at a concrete pair: the distance of `"scala"` and `"spark"` is the same in both
orders. -/
theorem Distance_symm_witness :
    Distance pairModel "scala" "spark" =
        .ok (dotProduct [1, 2, 3] [3, 0, 1] / (2 * 5), none) ∧
    Distance pairModel "spark" "scala" =
        .ok (dotProduct [1, 2, 3] [3, 0, 1] / (2 * 5), none) :=
  ⟨Distance_spec pairModel "scala" "spark" [1, 2, 3] [3, 0, 1] 2 5 (by decide) (by decide)
      (by decide) (by decide) (by decide),
    Distance_symm pairModel "scala" "spark" _
      (Distance_spec pairModel "scala" "spark" [1, 2, 3] [3, 0, 1] 2 5 (by decide) (by decide)
        (by decide) (by decide) (by decide))⟩

/-- C12, refuted as stated: on the empty sentence `Transform` returns a vector of three
components and reports no error. -/
theorem Transform_empty_no_error :
    (∃ r, Transform scalaModel [] = .ok r ∧ r.length = 3) ∧
    ∀ e, Transform scalaModel [] ≠ .error e := by
  have h : ∃ r, Transform scalaModel [] = .ok r ∧ r.length = 3 := by
    simp +decide [Transform, makeSlice, NewVecDense, Transform.loop, scalaModel, ScaleVec]
  obtain ⟨r, hr, hlen⟩ := h
  exact ⟨⟨r, hr, hlen⟩, fun e he => by rw [hr] at he; simp at he⟩

/-- C12 as amended: for a model that satisfies the shape invariant, `Transform` of the
empty sentence returns, with no error indication, a vector of the model's dimensionality;
the sentence length is not tested before the division. -/
theorem Transform_empty {F : Type} [Field F] (m : WordToVecModel F) (hm : m.ShapeOk) :
    (∃ r, Transform m [] = .ok r ∧ ((r.length : Nat) : Int) = m.VectorLength) ∧
    ∀ e, Transform m [] ≠ .error e := by
  obtain ⟨r, hr, hlen, _⟩ := Transform_spec m hm []
  exact ⟨⟨r, hr, hlen⟩, fun e he => by rw [hr] at he; simp at he⟩

/-- C12 as amended, at the model of the test scenario. -/
theorem Transform_empty_witness :
    scalaModel.ShapeOk ∧
    ∃ r, Transform scalaModel [] = .ok r ∧ ((r.length : Nat) : Int) = scalaModel.VectorLength :=
  ⟨by decide, (Transform_empty scalaModel (by decide)).1⟩

/-- C13, refuted as stated: for the zero vector, whose norm is `0`, `Distance` returns a
value together with a nil error. -/
theorem Distance_zero_norm_no_error :
    GoMap.lookup zeroModel.Norms "zero" = some 0 ∧
    ∃ x, Distance zeroModel "zero" "unit" = .ok (x, none) := by
  refine ⟨by decide, ?_⟩
  simp +decide [Distance, GoMap.lookup, zeroModel, Dot]

/-- C13 as amended: when both tokens are present (with vectors of equal length) and one of
the norms is `0`, `Distance` still returns a value together with a nil error; the norms
are not tested before the division. -/
theorem Distance_zero_norm {F : Type} [Field F] (m : WordToVecModel F) (a b : String)
    (va vb : VecDense F) (na nb : F)
    (hva : GoMap.lookup m.VectorMap a = some va) (hvb : GoMap.lookup m.VectorMap b = some vb)
    (hna : GoMap.lookup m.Norms a = some na) (hnb : GoMap.lookup m.Norms b = some nb)
    (hshape : va.length = vb.length) (_ : na = 0 ∨ nb = 0) :
    ∃ x, Distance m a b = .ok (x, none) :=
  ⟨_, Distance_spec m a b va vb na nb hva hvb hna hnb hshape⟩

/-- C13 as amended, at the zero vector of `zeroModel`. -/
theorem Distance_zero_norm_witness :
    GoMap.lookup zeroModel.VectorMap "zero" = some [0, 0] ∧
    GoMap.lookup zeroModel.Norms "zero" = some 0 ∧
    ∃ x, Distance zeroModel "zero" "zero" = .ok (x, none) :=
  ⟨by decide, by decide,
    Distance_zero_norm zeroModel "zero" "zero" [0, 0] [0, 0] 0 0 (by decide) (by decide)
      (by decide) (by decide) (by decide) (Or.inl rfl)⟩

/-- C19: for a model that satisfies the shape invariant with a dimensionality of at least
one, and for every sentence, `Transform` does not abort and returns a vector of exactly
`VectorLength` components; when the sentence is not empty and none of its tokens is in the
store, that vector is the zero vector. -/
theorem Transform_safe {F : Type} [Field F] (m : WordToVecModel F) (hm : m.ShapeOk)
    (s : List String) :
    (∃ r, Transform m s = .ok r ∧ ((r.length : Nat) : Int) = m.VectorLength) ∧
    (s ≠ [] → (∀ t ∈ s, GoMap.lookup m.VectorMap t = none) →
      Transform m s = .ok (List.replicate m.VectorLength.toNat 0)) := by
  obtain ⟨r, hr, hlen, hj⟩ := Transform_spec m hm s
  refine ⟨⟨r, hr, hlen⟩, ?_⟩
  intro _ hnone
  have hfm : s.filterMap (GoMap.lookup m.VectorMap) = [] := by
    rw [List.filterMap_eq_nil_iff]
    exact hnone
  rw [hr]
  congr 1
  apply ext_getD
  · rw [List.length_replicate]; omega
  · intro j
    rw [hj j, hfm]
    simp only [List.map_nil, List.sum_nil, mul_zero, List.getD_eq_getElem?_getD,
      List.getElem?_replicate]
    split <;> simp

/-- C19 at the model of the test scenario: a sentence of one unknown token is transformed
to the zero vector of three components. -/
theorem Transform_safe_witness :
    scalaModel.ShapeOk ∧ ["unknown_token"] ≠ [] ∧
    (∀ t ∈ ["unknown_token"], GoMap.lookup scalaModel.VectorMap t = none) ∧
    Transform scalaModel ["unknown_token"] = .ok [0, 0, 0] :=
  ⟨by decide, by decide, by decide,
    (Transform_safe scalaModel (by decide) ["unknown_token"]).2 (by decide) (by decide)⟩

/-! ## `Load` and the archive -/

/-- C16, refuted as stated: on a path at which no archive can be opened, `Load` does not
return to its caller; the process is terminated by `log.Fatal`. -/
theorem Load_nonexistent_fatal :
    Load noArchive (fun _ => permPayload ℚ) Rat.sqrt "/nonexistent/path.zip" =
      .error (.logFatal "open /nonexistent/path.zip: no such file or directory") ∧
    ∀ r, Load noArchive (fun _ => permPayload ℚ) Rat.sqrt "/nonexistent/path.zip" ≠ .ok r := by
  have h : Load noArchive (fun _ => permPayload ℚ) Rat.sqrt "/nonexistent/path.zip" =
      .error (.logFatal "open /nonexistent/path.zip: no such file or directory") := rfl
  exact ⟨h, fun r hr => by rw [h] at hr; simp at hr⟩

/-- C16 as amended: for every path at which the archive cannot be opened, `Load` passes
the error of `zip.OpenReader` to `log.Fatal`, which terminates the process; no result is
returned to the caller. -/
theorem Load_open_failure_fatal {F : Type} [Field F]
    (OpenReader : String → Except String (List ZipFile))
    (Unmarshal : List UInt8 → WordToVecJson F) (sqrt : F → F) (filePath err : String)
    (h : OpenReader filePath = .error err) :
    Load OpenReader Unmarshal sqrt filePath = .error (.logFatal err) ∧
    ∀ r, Load OpenReader Unmarshal sqrt filePath ≠ .ok r := by
  have h' : Load OpenReader Unmarshal sqrt filePath = .error (.logFatal err) := by
    simp only [Load, h]
  exact ⟨h', fun r hr => by rw [h'] at hr; simp at hr⟩

/-- C16 as amended, at a file system without archives. -/
theorem Load_open_failure_fatal_witness :
    noArchive "model.zip" = .error "open model.zip: no such file or directory" ∧
    Load noArchive (fun _ => permPayload ℚ) Rat.sqrt "model.zip" =
      .error (.logFatal "open model.zip: no such file or directory") :=
  ⟨rfl, (Load_open_failure_fatal noArchive (fun _ => permPayload ℚ) Rat.sqrt "model.zip"
    "open model.zip: no such file or directory" rfl).1⟩

/-- C17, refuted as stated: for an archive without a payload entry `Load` returns a nil
model together with a nil error. -/
theorem Load_no_payload_example :
    (∀ f ∈ noPayloadArchive, stringsContains f.Name "model.json" = false) ∧
    Load (fun _ => .ok noPayloadArchive) (fun _ => permPayload ℚ) Rat.sqrt "model.zip" =
      .ok (none, none) :=
  ⟨by decide, rfl⟩

/-- C17 as amended: for every archive that can be opened and none of whose entry names
contains `"model.json"`, `Load` returns a nil model together with a nil error. -/
theorem Load_no_payload_nil_nil {F : Type} [Field F]
    (OpenReader : String → Except String (List ZipFile))
    (Unmarshal : List UInt8 → WordToVecJson F) (sqrt : F → F) (filePath : String)
    (files : List ZipFile) (h : OpenReader filePath = .ok files)
    (hno : ∀ f ∈ files, stringsContains f.Name "model.json" = false) :
    Load OpenReader Unmarshal sqrt filePath = .ok (none, none) := by
  simp only [Load, h]
  clear h
  induction files with
  | nil => rfl
  | cons f rest ih =>
    have hf := hno f (List.mem_cons_self _ _)
    simp only [Load.files, hf, Bool.false_eq_true, if_false]
    exact ih (fun g hg => hno g (List.mem_cons_of_mem _ hg))

/-- C17 as amended, at an archive of two entries that are not the payload. -/
theorem Load_no_payload_nil_nil_witness :
    (∀ f ∈ noPayloadArchive, stringsContains f.Name "model.json" = false) ∧
    Load (fun _ => .ok noPayloadArchive) (fun _ => dupPayload ℚ) Rat.sqrt "bundle.zip" =
      .ok (none, none) :=
  ⟨by decide,
    Load_no_payload_nil_nil (fun _ => .ok noPayloadArchive) (fun _ => dupPayload ℚ) Rat.sqrt
      "bundle.zip" noPayloadArchive rfl (by decide)⟩

/-! ## Payloads that violate the preconditions of the parser -/

/-- The parser on a payload with at least as many cursors as tokens, a positive
dimensionality and in-range blocks for the cursors it visits: it returns a model whose
dimensionality is the integer quotient, and the entry of a token is the block named by the
cursor at the token's last position. -/
theorem Load.build_ok {F : Type} [Field F] (sqrt : F → F) (modelStruct : WordToVecJson F)
    (d : Nat)
    (hd : modelStruct.Attributes.WordVectors.Vectors.length /
      modelStruct.Attributes.Indices.Cursors.length = d)
    (hle : modelStruct.Attributes.Words.Tokens.length ≤
      modelStruct.Attributes.Indices.Cursors.length)
    (hdim : 1 ≤ d) (hsz : modelStruct.Attributes.WordVectors.Vectors.length < 2 ^ 63)
    (hcur : ∀ (k : Nat) (c : Int), k < modelStruct.Attributes.Words.Tokens.length →
      modelStruct.Attributes.Indices.Cursors[k]? = some c →
      0 ≤ c ∧ c * (d : Int) + (d : Int) ≤
        (modelStruct.Attributes.WordVectors.Vectors.length : Int)) :
    ∃ m, Load.build sqrt modelStruct = .ok m ∧ m.VectorLength = (d : Int) ∧
      ∀ (i : Nat) (t : String) (c : Int),
        modelStruct.Attributes.Words.Tokens[i]? = some t →
        (∀ k', i < k' → modelStruct.Attributes.Words.Tokens[k']? ≠ some t) →
        modelStruct.Attributes.Indices.Cursors[i]? = some c →
        GoMap.lookup m.VectorMap t =
          some ((modelStruct.Attributes.WordVectors.Vectors.drop (c.toNat * d)).take d) := by
  obtain ⟨⟨⟨tokens, ty1⟩, ⟨cursors, ty2⟩, ⟨vectors, ty3⟩⟩, op⟩ := modelStruct
  simp only at hd hle hsz hcur ⊢
  have hcl : cursors.length ≠ 0 := by
    intro h0
    rw [h0, Nat.div_zero] at hd
    omega
  obtain ⟨r, hr, _, hval⟩ := Load.loop_ok sqrt ⟨⟨tokens, ty1⟩, ⟨cursors, ty2⟩, ⟨vectors, ty3⟩⟩
    d hdim hsz tokens 0 [] [] (fun k hk => by
      have hk' : k < cursors.length := by omega
      have hget : cursors[k]? = some cursors[k] := List.getElem?_eq_getElem hk'
      refine ⟨cursors[k], ?_, hcur k _ hk hget⟩
      simp only [Nat.zero_add]
      exact hget)
  refine ⟨⟨r.1, r.2, (d : Int)⟩, ?_, rfl, ?_⟩
  · simp only [Load.build, divInt, if_neg hcl, hd, hr]
  · intro i t c ht hlast hc
    exact hval i t c ht hlast (by simpa using hc)

/-- C14, refuted as stated: a payload of two cursors and three values is parsed to a model
of dimensionality one, with a nil error, the third value being left out; and a payload
with an empty cursor list makes `Load` abort on an integer division by zero. -/
theorem Load_ragged_example :
    (raggedPayload ℚ).Attributes.WordVectors.Vectors.length %
      (raggedPayload ℚ).Attributes.Indices.Cursors.length ≠ 0 ∧
    (∃ m, Load (fun _ => .ok payloadArchive) (fun _ => raggedPayload ℚ) Rat.sqrt "model.zip" =
        .ok (some m, none) ∧
      m.VectorLength = 1 ∧ GoMap.lookup m.VectorMap "a" = some [1] ∧
      GoMap.lookup m.VectorMap "b" = some [2]) ∧
    Load (fun _ => .ok payloadArchive) (fun _ => noCursorPayload ℚ) Rat.sqrt "model.zip" =
      .error .divideByZero :=
  ⟨by decide, ⟨_, rfl, rfl, rfl, rfl⟩, rfl⟩

/-- C14 as amended: the parser makes no divisibility check.  For a payload whose flattened
array is not a multiple of the number of cursors, with as many cursors as tokens and
cursors that name blocks of the truncated size inside the array, the parse returns a model
whose dimensionality is the truncated quotient, so that the model covers fewer values than
the flattened array holds. -/
theorem Load_truncated_dimensionality {F : Type} [Field F] (sqrt : F → F)
    (modelStruct : WordToVecJson F)
    (hrem : modelStruct.Attributes.WordVectors.Vectors.length %
      modelStruct.Attributes.Indices.Cursors.length ≠ 0)
    (hlen : modelStruct.Attributes.Words.Tokens.length =
      modelStruct.Attributes.Indices.Cursors.length)
    (hdim : 1 ≤ modelStruct.Attributes.WordVectors.Vectors.length /
      modelStruct.Attributes.Indices.Cursors.length)
    (hsz : modelStruct.Attributes.WordVectors.Vectors.length < 2 ^ 63)
    (hcur : ∀ c ∈ modelStruct.Attributes.Indices.Cursors, 0 ≤ c ∧
      c * ((modelStruct.Attributes.WordVectors.Vectors.length /
          modelStruct.Attributes.Indices.Cursors.length : Nat) : Int) +
        ((modelStruct.Attributes.WordVectors.Vectors.length /
          modelStruct.Attributes.Indices.Cursors.length : Nat) : Int) ≤
        (modelStruct.Attributes.WordVectors.Vectors.length : Int)) :
    ∃ m, Load.build sqrt modelStruct = .ok m ∧
      m.VectorLength = ((modelStruct.Attributes.WordVectors.Vectors.length /
        modelStruct.Attributes.Indices.Cursors.length : Nat) : Int) ∧
      m.VectorLength * (modelStruct.Attributes.Indices.Cursors.length : Int) <
        (modelStruct.Attributes.WordVectors.Vectors.length : Int) := by
  obtain ⟨m, hm, hvl, _⟩ := Load.build_ok sqrt modelStruct _ rfl (le_of_eq hlen) hdim hsz
    (fun k c _ hc => hcur c (List.getElem?_mem hc))
  refine ⟨m, hm, hvl, ?_⟩
  rw [hvl]
  have h1 := Nat.div_add_mod modelStruct.Attributes.WordVectors.Vectors.length
    modelStruct.Attributes.Indices.Cursors.length
  have h2 : modelStruct.Attributes.WordVectors.Vectors.length /
      modelStruct.Attributes.Indices.Cursors.length *
      modelStruct.Attributes.Indices.Cursors.length <
      modelStruct.Attributes.WordVectors.Vectors.length := by
    rw [Nat.mul_comm]; omega
  exact_mod_cast h2

/-- C14 as amended, at the payload of two cursors and three values. -/
theorem Load_truncated_dimensionality_witness :
    ∃ m, Load.build Rat.sqrt (raggedPayload ℚ) = .ok m ∧ m.VectorLength = 1 := by
  obtain ⟨m, hm, hvl, _⟩ := Load_truncated_dimensionality Rat.sqrt (raggedPayload ℚ)
    (by decide) (by decide) (by decide) (by decide) (by decide)
  exact ⟨m, hm, hvl⟩

/-- C15, refuted as stated: a payload with one token and two cursors is parsed to a model,
with a nil error; a payload with two tokens and one cursor makes `Load` abort on an index
out of range; and a payload with a negative cursor makes it abort on slice bounds out of
range. -/
theorem Load_mismatch_example :
    (∃ m, Load (fun _ => .ok payloadArchive) (fun _ => shortTokensPayload ℚ) Rat.sqrt
        "model.zip" = .ok (some m, none) ∧
      m.VectorLength = 2 ∧ GoMap.lookup m.VectorMap "a" = some [1, 2]) ∧
    Load (fun _ => .ok payloadArchive) (fun _ => longTokensPayload ℚ) Rat.sqrt "model.zip" =
      .error .indexOutOfRange ∧
    Load (fun _ => .ok payloadArchive) (fun _ => negCursorPayload ℚ) Rat.sqrt "model.zip" =
      .error .sliceBounds :=
  ⟨⟨_, rfl, rfl, rfl⟩, rfl, rfl⟩

/-- C15 as amended: the parser does not compare the lengths of the token list and of the
cursor list.  For a payload with fewer tokens than cursors, a positive dimensionality and
in-range blocks for the cursors at the token positions, the parse returns a model whose
keys are exactly the tokens; the surplus cursors enter only through the dimensionality,
which is still the quotient by the full number of cursors. -/
theorem Load_surplus_cursors {F : Type} [Field F] (sqrt : F → F)
    (modelStruct : WordToVecJson F)
    (hlt : modelStruct.Attributes.Words.Tokens.length <
      modelStruct.Attributes.Indices.Cursors.length)
    (hdim : 1 ≤ modelStruct.Attributes.WordVectors.Vectors.length /
      modelStruct.Attributes.Indices.Cursors.length)
    (hsz : modelStruct.Attributes.WordVectors.Vectors.length < 2 ^ 63)
    (hcur : ∀ (k : Nat) (c : Int), k < modelStruct.Attributes.Words.Tokens.length →
      modelStruct.Attributes.Indices.Cursors[k]? = some c →
      0 ≤ c ∧ c * ((modelStruct.Attributes.WordVectors.Vectors.length /
          modelStruct.Attributes.Indices.Cursors.length : Nat) : Int) +
        ((modelStruct.Attributes.WordVectors.Vectors.length /
          modelStruct.Attributes.Indices.Cursors.length : Nat) : Int) ≤
        (modelStruct.Attributes.WordVectors.Vectors.length : Int)) :
    ∃ m, Load.build sqrt modelStruct = .ok m ∧
      m.VectorLength = ((modelStruct.Attributes.WordVectors.Vectors.length /
        modelStruct.Attributes.Indices.Cursors.length : Nat) : Int) ∧
      (∀ t, (GoMap.lookup m.VectorMap t).isSome = true ↔
        t ∈ modelStruct.Attributes.Words.Tokens) ∧
      (∀ t, (GoMap.lookup m.Norms t).isSome = true ↔
        t ∈ modelStruct.Attributes.Words.Tokens) := by
  obtain ⟨m, hm, hvl, _⟩ := Load.build_ok sqrt modelStruct _ rfl (le_of_lt hlt) hdim hsz hcur
  obtain ⟨_, _, hloop⟩ := Load.build_inv sqrt modelStruct m hm
  obtain ⟨hk1, hk2, _, _⟩ := Load.loop_post sqrt _ _ _ _ _ _ _ hloop
  exact ⟨m, hm, hvl, fun t => by simpa [GoMap.lookup] using hk1 t,
    fun t => by simpa [GoMap.lookup] using hk2 t⟩

/-- C15 as amended, at the payload of one token and two cursors. -/
theorem Load_surplus_cursors_witness :
    ∃ m, Load.build Rat.sqrt (shortTokensPayload ℚ) = .ok m ∧ m.VectorLength = 2 ∧
      ∀ t, (GoMap.lookup m.VectorMap t).isSome = true ↔ t ∈ ["a"] := by
  obtain ⟨m, hm, hvl, hk, _⟩ := Load_surplus_cursors Rat.sqrt (shortTokensPayload ℚ)
    (by decide) (by decide) (by decide) (fun k c hk hc => by
      have hk0 : k = 0 := by
        have : k < 1 := hk
        omega
      subst hk0
      have hc0 : c = 0 := by
        have : some (0 : Int) = some c := hc
        exact (Option.some.inj this).symm
      subst hc0
      decide)
  exact ⟨m, hm, hvl, hk⟩

/-! ## Token lists with repeated tokens -/

theorem GoMap.keys_store {V : Type} (m : GoMap V) (k : String) (v : V) :
    GoMap.keys (GoMap.store m k v) =
      k :: List.filter (fun x => decide (x ≠ k)) (GoMap.keys m) := by
  simp only [GoMap.keys, GoMap.store, List.map_cons, List.filter_map]
  rfl

theorem GoMap.nodup_keys_store {V : Type} (m : GoMap V) (k : String) (v : V)
    (h : (GoMap.keys m).Nodup) : (GoMap.keys (GoMap.store m k v)).Nodup := by
  rw [GoMap.keys_store, List.nodup_cons]
  refine ⟨fun hmem => ?_, h.filter _⟩
  have := (List.mem_filter.mp hmem).2
  simp at this

theorem GoMap.mem_keys_iff {V : Type} (m : GoMap V) (t : String) :
    t ∈ GoMap.keys m ↔ (GoMap.lookup m t).isSome = true := by
  induction m with
  | nil => simp [GoMap.keys, GoMap.lookup]
  | cons p rest ih =>
    obtain ⟨k, v⟩ := p
    simp only [GoMap.keys, List.map_cons, List.mem_cons, GoMap.lookup] at ih ⊢
    by_cases e : k = t
    · simp [e]
    · have e' : ¬ t = k := fun h => e h.symm
      simp [e, e', ih]

/-- Every completed run of the loop of `Load` keeps one entry per key in both maps. -/
theorem Load.loop_nodup {F : Type} [Field F] (sqrt : F → F) (modelAttr : Attributes F)
    (dimSize : Int) (rest : List String) (idx : Nat)
    (vectorMap : GoMap (VecDense F)) (norms : GoMap F) (r : GoMap (VecDense F) × GoMap F)
    (h : Load.loop sqrt modelAttr dimSize rest idx vectorMap norms = .ok r)
    (hv : (GoMap.keys vectorMap).Nodup) (hn : (GoMap.keys norms).Nodup) :
    (GoMap.keys r.1).Nodup ∧ (GoMap.keys r.2).Nodup := by
  induction rest generalizing idx vectorMap norms with
  | nil =>
    simp only [Load.loop, Except.ok.injEq] at h
    subst h
    exact ⟨hv, hn⟩
  | cons token rest ih =>
    obtain ⟨v, _, _, hrest⟩ := Load.loop_cons_inv sqrt modelAttr dimSize token rest idx
      vectorMap norms r h
    exact ih (idx + 1) _ _ hrest (GoMap.nodup_keys_store _ _ _ hv)
      (GoMap.nodup_keys_store _ _ _ hn)

/-- A map with one entry per key whose keys are the members of a list has as many entries
as the list has distinct members. -/
theorem GoMap.len_eq_dedup {V : Type} (m : GoMap V) (tokens : List String)
    (hnd : (GoMap.keys m).Nodup)
    (hk : ∀ t, (GoMap.lookup m t).isSome = true ↔ t ∈ tokens) :
    GoMap.len m = tokens.dedup.length := by
  have hperm : List.Perm (GoMap.keys m) tokens.dedup :=
    (List.perm_ext_iff_of_nodup hnd (List.nodup_dedup tokens)).mpr (fun t => by
      rw [GoMap.mem_keys_iff, hk t, List.mem_dedup])
  rw [← hperm.length_eq]
  simp [GoMap.len, GoMap.keys]

/-- C20: for a payload with as many cursors as tokens, a positive dimensionality and
in-range cursor blocks, whose token list may hold a token at several indices, the parsed
model holds one entry per token, the number of keys of each map is the number of distinct
tokens, and the vector and the norm stored for a token are those of its last occurrence:
the block named by the cursor at the highest index of the token, and the square root of
the inner product of that block with itself. -/
theorem Load_duplicate_tokens {F : Type} [Field F] (sqrt : F → F)
    (modelStruct : WordToVecJson F)
    (hlen : modelStruct.Attributes.Words.Tokens.length =
      modelStruct.Attributes.Indices.Cursors.length)
    (hdim : 1 ≤ modelStruct.Attributes.WordVectors.Vectors.length /
      modelStruct.Attributes.Indices.Cursors.length)
    (hsz : modelStruct.Attributes.WordVectors.Vectors.length < 2 ^ 63)
    (hcur : ∀ c ∈ modelStruct.Attributes.Indices.Cursors, 0 ≤ c ∧
      c * ((modelStruct.Attributes.WordVectors.Vectors.length /
          modelStruct.Attributes.Indices.Cursors.length : Nat) : Int) +
        ((modelStruct.Attributes.WordVectors.Vectors.length /
          modelStruct.Attributes.Indices.Cursors.length : Nat) : Int) ≤
        (modelStruct.Attributes.WordVectors.Vectors.length : Int)) :
    ∃ m, Load.build sqrt modelStruct = .ok m ∧
      (GoMap.keys m.VectorMap).Nodup ∧ (GoMap.keys m.Norms).Nodup ∧
      m.VectorMap.len = modelStruct.Attributes.Words.Tokens.dedup.length ∧
      m.Norms.len = modelStruct.Attributes.Words.Tokens.dedup.length ∧
      ∀ (i : Nat) (t : String) (c : Int),
        modelStruct.Attributes.Words.Tokens[i]? = some t →
        (∀ k', i < k' → modelStruct.Attributes.Words.Tokens[k']? ≠ some t) →
        modelStruct.Attributes.Indices.Cursors[i]? = some c →
        GoMap.lookup m.VectorMap t =
          some ((modelStruct.Attributes.WordVectors.Vectors.drop
            (c.toNat * (modelStruct.Attributes.WordVectors.Vectors.length /
              modelStruct.Attributes.Indices.Cursors.length))).take
            (modelStruct.Attributes.WordVectors.Vectors.length /
              modelStruct.Attributes.Indices.Cursors.length)) ∧
        GoMap.lookup m.Norms t =
          some (sqrt (dotProduct
            ((modelStruct.Attributes.WordVectors.Vectors.drop
              (c.toNat * (modelStruct.Attributes.WordVectors.Vectors.length /
                modelStruct.Attributes.Indices.Cursors.length))).take
              (modelStruct.Attributes.WordVectors.Vectors.length /
                modelStruct.Attributes.Indices.Cursors.length))
            ((modelStruct.Attributes.WordVectors.Vectors.drop
              (c.toNat * (modelStruct.Attributes.WordVectors.Vectors.length /
                modelStruct.Attributes.Indices.Cursors.length))).take
              (modelStruct.Attributes.WordVectors.Vectors.length /
                modelStruct.Attributes.Indices.Cursors.length)))) := by
  obtain ⟨m, hm, _, hval⟩ := Load.build_ok sqrt modelStruct _ rfl (le_of_eq hlen) hdim hsz
    (fun k c _ hc => hcur c (List.getElem?_mem hc))
  obtain ⟨_, _, hloop⟩ := Load.build_inv sqrt modelStruct m hm
  obtain ⟨hk1, hk2, _, _⟩ := Load.loop_post sqrt _ _ _ _ _ _ _ hloop
  obtain ⟨hn1, hn2⟩ := Load.loop_nodup sqrt _ _ _ _ _ _ _ hloop
    (by simp [GoMap.keys]) (by simp [GoMap.keys])
  refine ⟨m, hm, hn1, hn2, ?_, ?_, ?_⟩
  · exact GoMap.len_eq_dedup _ _ hn1 (fun t => by simpa [GoMap.lookup] using hk1 t)
  · exact GoMap.len_eq_dedup _ _ hn2 (fun t => by simpa [GoMap.lookup] using hk2 t)
  · intro i t c ht hlast hc
    have hv := hval i t c ht hlast hc
    exact ⟨hv, Load.build_norms sqrt modelStruct m hm t _ hv⟩

/-- C20 at the payload with tokens `["a", "a"]`, cursors `[0, 1]` and values
`[3, 4, 0, 5]`: the model has one key, whose vector is the second block `[0, 5]`. -/
theorem Load_duplicate_tokens_witness :
    ∃ m, Load.build Rat.sqrt (dupPayload ℚ) = .ok m ∧
      m.VectorMap.len = 1 ∧ m.Norms.len = 1 ∧
      GoMap.lookup m.VectorMap "a" = some [0, 5] ∧
      GoMap.lookup m.Norms "a" = some (Rat.sqrt (dotProduct [0, 5] [0, 5])) := by
  obtain ⟨m, hm, _, _, hl1, hl2, hval⟩ := Load_duplicate_tokens Rat.sqrt (dupPayload ℚ)
    (by decide) (by decide) (by decide) (by decide)
  have hlast : ∀ k', 1 < k' → (dupPayload ℚ).Attributes.Words.Tokens[k']? ≠ some "a" := by
    intro k' hk' hget
    have hnone : (dupPayload ℚ).Attributes.Words.Tokens[k']? = none :=
      List.getElem?_eq_none (by
        have : (dupPayload ℚ).Attributes.Words.Tokens.length = 2 := rfl
        omega)
    rw [hnone] at hget
    simp at hget
  obtain ⟨hv, hn⟩ := hval 1 "a" 1 rfl hlast rfl
  exact ⟨m, hm, hl1, hl2, hv, hn⟩

/-! ## What `Transform` writes -/

theorem Heap.read_append_last {F : Type} (heap : Heap F) (acc : List F) :
    Heap.read (heap ++ [acc]) heap.length = acc := by
  simp [Heap.read, List.getD_eq_getElem?_getD]

theorem Heap.read_append_lt {F : Type} (heap : Heap F) (acc : List F) (a : Nat)
    (h : a < heap.length) : Heap.read (heap ++ [acc]) a = Heap.read heap a := by
  simp [Heap.read, List.getD_eq_getElem?_getD, List.getElem?_append_left h]

theorem Heap.write_append_last {F : Type} (heap : Heap F) (acc data : List F) :
    Heap.write (heap ++ [acc]) heap.length data = heap ++ [data] := by
  simp [Heap.write, List.set_append_right]

theorem WordToVecModelRef.lookup_deref {F : Type} (model : WordToVecModelRef F)
    (heap : Heap F) (t : String) :
    GoMap.lookup (model.deref heap).VectorMap t =
      (GoMap.lookup model.VectorMap t).map heap.read := by
  simp only [WordToVecModelRef.deref]
  induction model.VectorMap with
  | nil => rfl
  | cons p rest ih =>
    obtain ⟨k, a⟩ := p
    simp only [List.map_cons, GoMap.lookup]
    split
    · rfl
    · exact ih

theorem WordToVecModelRef.deref_append {F : Type} (model : WordToVecModelRef F)
    (heap : Heap F) (hvalid : ∀ p ∈ model.VectorMap, p.2 < heap.length) (v : List F) :
    model.deref (heap ++ [v]) = model.deref heap := by
  simp only [WordToVecModelRef.deref, WordToVecModel.mk.injEq, and_true]
  apply List.map_congr_left
  intro p hp
  rw [Heap.read_append_lt heap v p.2 (hvalid p hp)]

/-- The loop of `Transform` over the memory, started with the accumulator in a newly
allocated array: it computes what the loop over values computes and writes nothing but
that array. -/
theorem TransformRef.loop_eq {F : Type} [Field F] (model : WordToVecModelRef F)
    (heap : Heap F) (hvalid : ∀ p ∈ model.VectorMap, p.2 < heap.length)
    (s : List String) (acc : List F) :
    TransformRef.loop model heap.length s (heap ++ [acc]) =
      (Transform.loop (model.deref heap) s acc).map (fun v => heap ++ [v]) := by
  induction s generalizing acc with
  | nil => rfl
  | cons token rest ih =>
    simp only [TransformRef.loop, Transform.loop, WordToVecModelRef.lookup_deref]
    cases hl : GoMap.lookup model.VectorMap token with
    | none => simpa using ih acc
    | some a =>
      have ha : a < heap.length := hvalid _ (GoMap.mem_of_lookup _ _ _ hl)
      simp only [Option.map_some', Heap.read_append_last, Heap.read_append_lt heap acc a ha]
      cases hadd : AddVec acc (heap.read a) with
      | error e => rfl
      | ok data =>
        simp only [Heap.write_append_last]
        exact ih data

/-- `Transform` over the memory allocates one array, returns its address, and leaves in it
the vector that `Transform` over values computes; the rest of the memory is as before. -/
theorem TransformRef_eq {F : Type} [Field F] (heap : Heap F) (model : WordToVecModelRef F)
    (hvalid : ∀ p ∈ model.VectorMap, p.2 < heap.length) (s : List String) :
    TransformRef heap model s =
      (Transform (model.deref heap) s).map (fun v => (heap.length, heap ++ [v])) := by
  simp only [TransformRef, Transform, Heap.alloc, WordToVecModelRef.deref]
  cases makeSlice (F := F) model.VectorLength with
  | error e => rfl
  | ok sumRaw =>
    simp only
    cases NewVecDense model.VectorLength sumRaw with
    | error e => rfl
    | ok data =>
      simp only
      have hloop := TransformRef.loop_eq model heap hvalid s data
      simp only [WordToVecModelRef.deref] at hloop
      rw [hloop]
      cases Transform.loop
        ⟨List.map (fun p => (p.1, heap.read p.2)) model.VectorMap, model.Norms,
          model.VectorLength⟩ s data with
      | error e => rfl
      | ok r =>
        simp only [Except.map, Heap.read_append_last, Heap.write_append_last]

/-- C18: `Transform` has no side effect on the model.  With the vectors of the model held
in memory (at allocated addresses), a call that returns leaves every array that existed
before the call as it was, so that the model denotes the same vectors, norms and
dimensionality after the call; the returned vector is the one `Transform` computes as a
function of the model and the sentence, and a second call with the same model and
sentence returns an equal vector. -/
theorem Transform_frame {F : Type} [Field F] (heap : Heap F) (model : WordToVecModelRef F)
    (hvalid : ∀ p ∈ model.VectorMap, p.2 < heap.length) (s : List String)
    (res : Nat) (heap' : Heap F) (h : TransformRef heap model s = .ok (res, heap')) :
    (∀ a, a < heap.length → heap'.read a = heap.read a) ∧
    model.deref heap' = model.deref heap ∧
    Transform (model.deref heap) s = .ok (heap'.read res) ∧
    ∃ res2 heap2, TransformRef heap' model s = .ok (res2, heap2) ∧
      heap2.read res2 = heap'.read res := by
  rw [TransformRef_eq heap model hvalid s] at h
  cases hT : Transform (model.deref heap) s with
  | error e => rw [hT] at h; simp [Except.map] at h
  | ok v =>
    rw [hT] at h
    simp only [Except.map, Except.ok.injEq, Prod.mk.injEq] at h
    obtain ⟨hres, hheap⟩ := h
    subst hres
    subst hheap
    have hvalid' : ∀ p ∈ model.VectorMap, p.2 < (heap ++ [v]).length := fun p hp => by
      have := hvalid p hp
      simp only [List.length_append, List.length_singleton]
      omega
    have hderef := WordToVecModelRef.deref_append model heap hvalid v
    refine ⟨fun a ha => Heap.read_append_lt heap v a ha, hderef, ?_, ?_⟩
    · rw [Heap.read_append_last]
    · refine ⟨(heap ++ [v]).length, (heap ++ [v]) ++ [v], ?_, ?_⟩
      · rw [TransformRef_eq (heap ++ [v]) model hvalid' s, hderef, hT]
        rfl
      · rw [Heap.read_append_last, Heap.read_append_last]

/-- C18 at the test scenario, with the vector of `"scala"` at address `0`: the call
returns a new array at address `1` holding `[1, 2, 3]` and leaves address `0` as it was. -/
theorem Transform_frame_witness :
    (∀ p ∈ scalaModelRef.VectorMap, p.2 < ([[1, 2, 3]] : Heap ℚ).length) ∧
    TransformRef [[1, 2, 3]] scalaModelRef ["scala", "scala"] =
      .ok (1, [[1, 2, 3], [1, 2, 3]]) ∧
    Heap.read ([[1, 2, 3], [1, 2, 3]] : Heap ℚ) 0 = Heap.read ([[1, 2, 3]] : Heap ℚ) 0 ∧
    scalaModelRef.deref [[1, 2, 3], [1, 2, 3]] = scalaModelRef.deref [[1, 2, 3]] := by
  have h : TransformRef [[1, 2, 3]] scalaModelRef ["scala", "scala"] =
      .ok (1, [[1, 2, 3], [1, 2, 3]]) := by
    simp +decide [TransformRef, makeSlice, NewVecDense, TransformRef.loop, GoMap.lookup,
      scalaModelRef, AddVec, ScaleVec, List.replicate, Heap.alloc, Heap.read, Heap.write]
    norm_num
  have hf := Transform_frame [[1, 2, 3]] scalaModelRef (by decide) ["scala", "scala"] 1
    [[1, 2, 3], [1, 2, 3]] h
  exact ⟨by decide, h, hf.1 0 (by decide), hf.2.1⟩

/-! ## `Transform` in float64 arithmetic -/

set_option maxRecDepth 100000 in
/-- In float64 the scenario of the test is exact: with `"scala"` mapped to
`[1.0, 2.0, 3.0]`, the sentence `["scala", "scala"]` is transformed to `[1.0, 2.0, 3.0]`. -/
theorem Transform64_scala_pair :
    Transform64 scalaModel64 ["scala", "scala"] =
      .ok [Float64.ofNat 1, Float64.ofNat 2, Float64.ofNat 3] := by
  decide

set_option maxRecDepth 100000 in
/-- In float64 the empty sentence is transformed to a vector of NaN components: the factor
is `1 / 0 = +Inf`, and `+Inf * 0` is NaN. -/
theorem Transform64_empty_nan :
    Float64.div (Float64.ofNat 1) (Float64.ofNat 0) = .inf false ∧
    Transform64 scalaModel64 [] = .ok [.nan, .nan, .nan] := by
  decide

set_option maxRecDepth 100000 in
/-- C9, refuted as stated: in float64, with `"one"` mapped to `[1.0]`, the sentence of 49
copies of `"one"` is transformed to `[1 - 2^-53]` (printed `0.9999999999999999`), which
is not the vector of `"one"`: the sum is `49.0`, the factor is the float64 nearest to
`1 / 49`, and their product rounds below `1.0`. -/
theorem Transform64_replicate_49 :
    GoMap.lookup unitModel64.VectorMap "one" = some [Float64.fin false (2 ^ 52) (-52)] ∧
    Float64.div (Float64.ofNat 1) (Float64.ofNat 49) = .fin false 5882252574524729 (-58) ∧
    Transform64 unitModel64 (List.replicate 49 "one") =
      .ok [Float64.fin false (2 ^ 53 - 1) (-53)] ∧
    Transform64 unitModel64 (List.replicate 49 "one") ≠
      .ok [Float64.fin false (2 ^ 52) (-52)] := by
  decide

end Mleap
